import Mathlib

/-!
Verification of the scheduling engine of the cclaw repository
(`src/cclaw/cron.py` and `src/cclaw/heartbeat.py`) against its
natural-language specification.

Modelling conventions of this shallow embedding:

* Instants are integer seconds since the Unix epoch, in UTC
  (`Int`); sub-second precision (Python `datetime` microseconds) is
  below the granularity of every property proved here and is dropped.
* The wall-clock calendar (`datetime`, `zoneinfo`) is modelled with the
  standard proleptic-Gregorian civil-from-days / days-from-civil
  algorithms; a timezone is a fixed offset in minutes (the zones
  exercised by the spec, UTC and Asia/Seoul, have no DST).
* The cron engine (the external `croniter` library) is modelled by the
  standard 5-field cron semantics: an expression denotes a set of
  wall-clock minutes, and `get_next(base)` returns the least matching
  whole minute strictly after `base` (bounded here by an explicit
  search fuel, which the theorems never rely on).
* Python strings are modelled as `List Char` wrapped in `String`;
  `str.strip`, `str.split`, `int(...)` and `datetime.fromisoformat` /
  `isoformat` are re-implemented structurally below.
* The scheduler loops (`run_cron_scheduler`, `run_heartbeat_scheduler`)
  are modelled as pure functions over an explicit state and a script of
  per-cycle inputs (clock reading, stop-signal observations, and a
  fault oracle standing for an exception raised while evaluating a
  job).  The several `datetime.now()` reads inside one cycle are
  modelled as a single per-cycle instant.
-/

/-! ### Characters, digits, strings -/

/-- Decimal value of a digit character, `none` for non-digits. -/
def digitVal (c : Char) : Option Nat :=
  if '0' ≤ c ∧ c ≤ '9' then some (c.toNat - 48) else none

/-- The decimal digit character for `d % 10`. -/
def digitChar (d : Nat) : Char := Char.ofNat (48 + d % 10)

/-- Whitespace test used by the model of Python `str.strip`. -/
def isSpaceChar (c : Char) : Bool :=
  c = ' ' || c = '\t' || c = '\n' || c = '\r'

/-- Model of Python `str.strip`: drop whitespace at both ends. -/
def stripChars (l : List Char) : List Char :=
  ((l.dropWhile isSpaceChar).reverse.dropWhile isSpaceChar).reverse

/-- Numeric value of a digit string (most significant first). -/
def digitsToNat (l : List Char) : Nat :=
  l.foldl (fun acc c => acc * 10 + (digitVal c).getD 0) 0

/-- Model of Python `int(s)` on plain decimal strings: all characters
must be digits and the string must be nonempty. -/
def parseNatDigits (l : List Char) : Option Nat :=
  if l = [] then none
  else if l.all (fun c => (digitVal c).isSome) then some (digitsToNat l)
  else none

/-- Split a character list on a separator character (model of Python
`str.split(sep)`): always returns at least one (possibly empty) group. -/
def splitChars (sep : Char) : List Char → List (List Char)
  | [] => [[]]
  | c :: rest =>
    match splitChars sep rest with
    | [] => [[]]
    | g :: gs => if c = sep then [] :: g :: gs else (c :: g) :: gs

/-- Two-digit zero-padded decimal rendering (`%02d` for values < 100). -/
def pad2 (n : Nat) : List Char := [digitChar (n / 10 % 10), digitChar (n % 10)]

/-- Four-digit zero-padded decimal rendering (`%04d` for values < 10000). -/
def pad4 (n : Nat) : List Char :=
  [digitChar (n / 1000 % 10), digitChar (n / 100 % 10),
   digitChar (n / 10 % 10), digitChar (n % 10)]

/-! ### Civil calendar

Standard proleptic-Gregorian conversions between a day index (days
since 1970-01-01) and a civil date, as used by Python `datetime`. -/

/-- Civil date `(year, month, day)` of a day index. -/
def civilFromDays (z₀ : Int) : Int × Nat × Nat :=
  let z := z₀ + 719468
  let era := z.ediv 146097
  let doe := (z - era * 146097).toNat
  let yoe := (doe - doe / 1460 + doe / 36524 - doe / 146096) / 365
  let y := (yoe : Int) + era * 400
  let doy := doe - (365 * yoe + yoe / 4 - yoe / 100)
  let mp := (5 * doy + 2) / 153
  let d := doy - (153 * mp + 2) / 5 + 1
  let m := if mp < 10 then mp + 3 else mp - 9
  (if m ≤ 2 then y + 1 else y, m, d)

/-- Day index of a civil date. -/
def daysFromCivil (y : Int) (m d : Nat) : Int :=
  let y₂ := if m ≤ 2 then y - 1 else y
  let era := y₂.ediv 400
  let yoe := (y₂ - era * 400).toNat
  let doy := (153 * (if 2 < m then m - 3 else m + 9) + 2) / 5 + d - 1
  let doe := yoe * 365 + yoe / 4 - yoe / 100 + doy
  era * 146097 + (doe : Int) - 719468

/-- Leap-year test (Gregorian). -/
def isLeapYear (y : Int) : Bool :=
  (y.emod 4 == 0 && y.emod 100 != 0) || y.emod 400 == 0

/-- Number of days in a month. -/
def daysInMonth (y : Int) (m : Nat) : Nat :=
  match m with
  | 1 => 31 | 2 => if isLeapYear y then 29 else 28 | 3 => 31
  | 4 => 30 | 5 => 31 | 6 => 30 | 7 => 31 | 8 => 31
  | 9 => 30 | 10 => 31 | 11 => 30 | 12 => 31
  | _ => 0

/-! Wall-clock fields of a minute index (minutes since the epoch in
some fixed-offset zone). -/

/-- Minute-of-hour of a minute index. -/
def minuteInHour (m : Int) : Nat := (m.emod 60).toNat

/-- Hour-of-day of a minute index. -/
def hourOfDay (m : Int) : Nat := ((m.ediv 60).emod 24).toNat

/-- Day index of a minute index. -/
def dayIndex (m : Int) : Int := m.ediv 1440

/-- Day-of-month of a minute index. -/
def domOf (m : Int) : Nat := (civilFromDays (dayIndex m)).2.2

/-- Month of a minute index. -/
def monthOf (m : Int) : Nat := (civilFromDays (dayIndex m)).2.1

/-- Day-of-week of a minute index, 0 = Sunday (1970-01-01 was a
Thursday, hence the +4). -/
def dowOf (m : Int) : Nat := ((dayIndex m + 4).emod 7).toNat

example : civilFromDays 0 = (1970, 1, 1) := by decide
example : civilFromDays 20139 = (2025, 2, 20) := by decide
example : daysFromCivil 2025 2 20 = 20139 := by decide
example : dowOf 0 = 4 := by decide

/-! ### Cron expressions

Model of the external `croniter` engine as used by
`validate_cron_schedule` and `run_cron_scheduler`: standard 5-field
cron (`minute hour day-of-month month day-of-week`), numeric fields
with `*`, `a`, `a-b`, lists, and `/step`. -/

/-- One comma-separated item of a cron field. -/
inductive CronItem where
  | star (step : Nat)
  | rng (lo hi step : Nat)
deriving DecidableEq

/-- Whether a cron item matches a field value (with the field's
minimum, used as the base of `*/step`). -/
def itemMatches (fmin : Nat) (it : CronItem) (v : Nat) : Bool :=
  match it with
  | .star step => (v - fmin) % step == 0
  | .rng lo hi step => decide (lo ≤ v) && decide (v ≤ hi) && ((v - lo) % step == 0)

/-- Whether a cron field (list of items) matches a value. -/
def fieldMatches (fmin : Nat) (f : List CronItem) (v : Nat) : Bool :=
  f.any (fun it => itemMatches fmin it v)

/-- A parsed 5-field cron expression. The `domStar`/`dowStar` flags
record whether the day fields were literally `*`, which selects the
standard vixie-cron union semantics for the two day fields. -/
structure CronExpr where
  minute : List CronItem
  hour : List CronItem
  dom : List CronItem
  month : List CronItem
  dow : List CronItem
  domStar : Bool
  dowStar : Bool
deriving DecidableEq

/-- Parse `a` or `a-b` with bounds checking, attaching a step. -/
def parseItemBase (fmin fmax : Nat) (l : List Char) (step : Nat) : Option CronItem :=
  match splitChars '-' l with
  | [a] =>
    match parseNatDigits a with
    | some n => if fmin ≤ n ∧ n ≤ fmax then some (CronItem.rng n n step) else none
    | none => none
  | [a, b] =>
    match parseNatDigits a, parseNatDigits b with
    | some lo, some hi =>
      if fmin ≤ lo ∧ lo ≤ hi ∧ hi ≤ fmax then some (CronItem.rng lo hi step) else none
    | _, _ => none
  | _ => none

/-- Parse one cron field item: `*`, `*/s`, `a`, `a-b`, `a-b/s`. -/
def parseItem (fmin fmax : Nat) (l : List Char) : Option CronItem :=
  match splitChars '/' l with
  | [body] => if body = ['*'] then some (CronItem.star 1) else parseItemBase fmin fmax body 1
  | [body, stepS] =>
    match parseNatDigits stepS with
    | some step =>
      if step = 0 then none
      else if body = ['*'] then some (CronItem.star step)
      else parseItemBase fmin fmax body step
    | none => none
  | _ => none

/-- Parse one cron field: comma-separated items. -/
def parseField (fmin fmax : Nat) (l : List Char) : Option (List CronItem) :=
  (splitChars ',' l).mapM (parseItem fmin fmax)

/-- Parse a 5-field cron expression (whitespace-separated). -/
def parseCronExpr (s : String) : Option CronExpr :=
  match (splitChars ' ' s.toList).filter (fun w => w ≠ []) with
  | [f1, f2, f3, f4, f5] =>
    match parseField 0 59 f1, parseField 0 23 f2, parseField 1 31 f3,
          parseField 1 12 f4, parseField 0 6 f5 with
    | some minute, some hour, some dom, some month, some dow =>
      some ⟨minute, hour, dom, month, dow, f3 == ['*'], f5 == ['*']⟩
    | _, _, _, _, _ => none
  | _ => none

/-- Model of `validate_cron_schedule` (`croniter.is_valid`). -/
def validateCronSchedule (s : String) : Bool := (parseCronExpr s).isSome

/-- Whether a cron expression matches a given wall-clock minute index
(minutes since the epoch in the evaluation zone).  The two day fields
use the standard union semantics when both are restricted. -/
def cronMatches (e : CronExpr) (m : Int) : Bool :=
  fieldMatches 0 e.minute (minuteInHour m) &&
  fieldMatches 0 e.hour (hourOfDay m) &&
  fieldMatches 1 e.month (monthOf m) &&
  (let dm := fieldMatches 1 e.dom (domOf m)
   let dw := fieldMatches 0 e.dow (dowOf m)
   if e.domStar || e.dowStar then dm && dw else dm || dw)

/-- Search fuel for the next-fire search (a year of minutes); the
theorems below never depend on its size. -/
def searchFuel : Nat := 527040

/-- Least matching minute index at or after `m`, fuel-bounded. -/
def nextMatchFrom (e : CronExpr) (m : Int) : Nat → Option Int
  | 0 => none
  | fuel + 1 => if cronMatches e m then some m else nextMatchFrom e (m + 1) fuel

/-- Model of `croniter(expr, base).get_next`: the least cron-matching
whole minute strictly after `base` (given in seconds), returned as a
minute index. -/
def getNextFireMinute (e : CronExpr) (base : Int) : Option Int :=
  nextMatchFrom e (base.ediv 60 + 1) searchFuel

/-- Model of the matching step of `run_cron_scheduler` (cron.py lines
369-377): truncate local `now` to its minute, ask the engine for the
next fire strictly after one second before that minute, and match when
the result (truncated to its minute: it already is a whole minute)
equals the current minute. -/
def cronScheduleMatchesNow (e : CronExpr) (nowLocalSeconds : Int) : Bool :=
  let currentMinute := nowLocalSeconds.ediv 60
  match getNextFireMinute e (currentMinute * 60 - 1) with
  | some fireMinute => fireMinute == currentMinute
  | none => false

example : validateCronSchedule "0 9 * * *" = true := by decide
example : validateCronSchedule "*/5 * * * *" = true := by decide
example : validateCronSchedule "0 0 1 * *" = true := by decide
example : validateCronSchedule "30 14 * * 1-5" = true := by decide
example : validateCronSchedule "not a cron" = false := by decide
example : validateCronSchedule "" = false := by decide
example : validateCronSchedule "60 * * * *" = false := by decide
example : parseCronExpr "* * * * *" =
    some ⟨[.star 1], [.star 1], [.star 1], [.star 1], [.star 1], true, true⟩ := by decide
example : parseCronExpr "0 6 * * *" =
    some ⟨[.rng 0 0 1], [.rng 6 6 1], [.star 1], [.star 1], [.star 1], true, true⟩ := by decide

/-! ### ISO-8601 instants and one-shot time parsing -/

/-- Read exactly two digits. -/
def read2 : List Char → Option (Nat × List Char)
  | a :: b :: rest =>
    match digitVal a, digitVal b with
    | some x, some y => some (10 * x + y, rest)
    | _, _ => none
  | _ => none

/-- Read exactly four digits. -/
def read4 : List Char → Option (Nat × List Char)
  | a :: b :: c :: d :: rest =>
    match digitVal a, digitVal b, digitVal c, digitVal d with
    | some w, some x, some y, some z => some (1000 * w + 100 * x + 10 * y + z, rest)
    | _, _, _, _ => none
  | _ => none

/-- Expect one specific character. -/
def expectChar (c : Char) : List Char → Option (List Char)
  | x :: rest => if x = c then some rest else none
  | [] => none

/-- Parse a trailing UTC-offset suffix, returning offset seconds.
An empty rest (naive datetime) yields offset 0, as
`parse_one_shot_time` replaces a missing tzinfo with UTC. -/
def parseOffsetSuffix : List Char → Option Int
  | [] => some 0
  | ['Z'] => some 0
  | sign :: rest =>
    if sign = '+' ∨ sign = '-' then
      match read2 rest with
      | some (oh, r₁) =>
        match expectChar ':' r₁ with
        | some r₂ =>
          match read2 r₂ with
          | some (om, r₃) =>
            if r₃ = [] ∧ oh < 24 ∧ om < 60 then
              some (if sign = '+' then (oh * 3600 + om * 60 : Int) else -(oh * 3600 + om * 60 : Int))
            else none
          | none => none
        | none => none
      | none => none
    else none

/-- Parse the `HH:MM[:SS]` time part followed by an optional offset,
returning seconds-into-day minus the offset. -/
def parseTimeAndOffset (l : List Char) : Option Int :=
  match read2 l with
  | some (h, r₁) =>
    match expectChar ':' r₁ with
    | some r₂ =>
      match read2 r₂ with
      | some (mi, r₃) =>
        if h < 24 ∧ mi < 60 then
          match r₃ with
          | ':' :: r₄ =>
            match read2 r₄ with
            | some (s, r₅) =>
              if s < 60 then
                match parseOffsetSuffix r₅ with
                | some off => some ((h * 3600 + mi * 60 + s : Nat) - off)
                | none => none
              else none
            | none => none
          | other =>
            match parseOffsetSuffix other with
            | some off => some ((h * 3600 + mi * 60 : Nat) - off)
            | none => none
        else none
      | none => none
    | none => none
  | none => none

/-- Model of `datetime.fromisoformat` on the forms this system emits
and accepts (`YYYY-MM-DD`, optionally `T`/space and `HH:MM[:SS]`,
optionally an offset), returning epoch seconds UTC. -/
def parseIsoChars (l : List Char) : Option Int :=
  match read4 l with
  | some (y, r₁) =>
    match expectChar '-' r₁ with
    | some r₂ =>
      match read2 r₂ with
      | some (mo, r₃) =>
        match expectChar '-' r₃ with
        | some r₄ =>
          match read2 r₄ with
          | some (d, r₅) =>
            if 1 ≤ y ∧ 1 ≤ mo ∧ mo ≤ 12 ∧ 1 ≤ d ∧ d ≤ daysInMonth y mo then
              let dayPart : Int := daysFromCivil (y : Int) mo d * 86400
              match r₅ with
              | [] => some dayPart
              | sep :: r₆ =>
                if sep = 'T' ∨ sep = ' ' then
                  match parseTimeAndOffset r₆ with
                  | some t => some (dayPart + t)
                  | none => none
                else none
            else none
          | none => none
        | none => none
      | none => none
    | none => none
  | none => none

/-- Split a nonempty character list into its initial characters and
its last character. -/
def durationSplit : List Char → Option (List Char × Char)
  | [] => none
  | [c] => some ([], c)
  | c :: c₂ :: rest =>
    match durationSplit (c₂ :: rest) with
    | some (ds, u) => some (c :: ds, u)
    | none => none

/-- Model of `re.match(r"^(\d+)([mhd])$", s)`: one or more digits
followed by a unit character `m`, `h` or `d`. -/
def durationMatch (l : List Char) : Option (Nat × Char) :=
  match durationSplit l with
  | some (ds, u) =>
    if (u = 'm' ∨ u = 'h' ∨ u = 'd') ∧ ds ≠ [] ∧ ds.all (fun c => (digitVal c).isSome) then
      some (digitsToNat ds, u)
    else none
  | none => none

/-- Seconds denoted by a duration shorthand amount and unit. -/
def durationSeconds (amt : Nat) (u : Char) : Int :=
  if u = 'm' then (amt * 60 : Nat)
  else if u = 'h' then (amt * 3600 : Nat)
  else (amt * 86400 : Nat)

/-- Model of `parse_one_shot_time` (cron.py lines 151-180), with the
hidden `datetime.now(timezone.utc)` made an explicit `now` argument:
duration shorthand is added to `now`; otherwise the string is parsed
as an ISO-8601 instant (naive values are taken as UTC). -/
def parseOneShotTime (now : Int) (s : String) : Option Int :=
  match durationMatch (stripChars s.toList) with
  | some (amt, u) => some (now + durationSeconds amt u)
  | none => parseIsoChars s.toList

/-- Model of `datetime.isoformat` on an aware UTC instant (with the
microsecond field dropped, see the header): `YYYY-MM-DDTHH:MM:SS+00:00`. -/
def isoformatChars (t : Int) : List Char :=
  let days := t.ediv 86400
  let secs := (t.emod 86400).toNat
  let ymd := civilFromDays days
  pad4 ymd.1.toNat ++ '-' :: pad2 ymd.2.1 ++ '-' :: pad2 ymd.2.2 ++
    'T' :: pad2 (secs / 3600) ++ ':' :: pad2 (secs / 60 % 60) ++ ':' :: pad2 (secs % 60) ++
    ['+', '0', '0', ':', '0', '0']

/-- String form of `isoformatChars`. -/
def isoformat (t : Int) : String := String.mk (isoformatChars t)

example : parseOneShotTime 0 "30m" = some 1800 := by decide
example : parseOneShotTime 0 "2h" = some 7200 := by decide
example : parseOneShotTime 0 "1d" = some 86400 := by decide
example : parseOneShotTime 5 " 30m " = some 1805 := by decide
example : parseOneShotTime 0 "2026-02-20T15:00:00" = some 1771599600 := by decide
example : parseOneShotTime 0 "not a time" = none := by decide
example : isoformat 1771599600 = "2026-02-20T15:00:00+00:00" := by decide
example : parseOneShotTime 12345 (isoformat 1771599600) = some 1771599600 := by decide
example : parseOneShotTime 0 "1970-01-01T09:00:00+09:00" = some 0 := by decide

/-! ### Jobs, timezone resolution, store operations -/

/-- A cron job record (one YAML mapping in a bot's `cron.yaml`).
Optional fields model `dict.get`; `atV` models the `"at"` key and
`stop`-like renamings avoid Lean keywords. -/
structure Job where
  name : Option String
  enabled : Option Bool
  schedule : Option String
  atV : Option String
  timezone : Option String
  delete_after_run : Option Bool
  message : Option String
deriving DecidableEq

/-- Modelled from the spec: the external `zoneinfo` database, restricted
to the zone names exercised by the spec (both without DST), as a fixed
offset in minutes east of UTC.  Unknown names yield `none`. -/
def zoneOffsetMinutes : String → Option Int
  | "UTC" => some 0
  | "Asia/Seoul" => some 540
  | _ => none

/-- Model of `resolve_job_timezone` (cron.py lines 23-35) as an offset
in minutes: an absent or empty name yields UTC, an unknown name logs a
warning and falls back to UTC. -/
def resolveJobTimezone (j : Job) : Int :=
  match j.timezone with
  | some name => if name = "" then 0 else (zoneOffsetMinutes name).getD 0
  | none => 0

/-- Model of the per-job cron matching performed by
`run_cron_scheduler` (cron.py lines 363-377): validate the schedule,
evaluate `now` in the job's timezone, and apply the next-fire-minute
technique. -/
def cronJobMatches (j : Job) (nowUtc : Int) : Bool :=
  match j.schedule with
  | some sched =>
    if validateCronSchedule sched then
      match parseCronExpr sched with
      | some e => cronScheduleMatchesNow e (nowUtc + resolveJobTimezone j * 60)
      | none => false
    else false
  | none => false

/-- Model of `remove_cron_job`'s effect on the job list: drop every
job whose name equals the given one. -/
def removeCronJob (jobs : List Job) (n : String) : List Job :=
  jobs.filter (fun k => !(k.name == some n))

/-- Model of `disable_cron_job`'s effect on the job list: set
`enabled: false` on the first job with the given name. -/
def disableCronJob : List Job → String → List Job
  | [], _ => []
  | k :: rest, n =>
    if k.name == some n then { k with enabled := some false } :: rest
    else k :: disableCronJob rest n

/-- Model of `get_cron_job`: first job with the given name. -/
def getCronJob (jobs : List Job) (n : String) : Option Job :=
  jobs.find? (fun k => k.name == some n)

/-- Model of `add_cron_job` (cron.py lines 80-107): reject duplicate
names; convert a relative `at` duration to an absolute ISO instant at
add time; append and save.  `Except.error` models a raised exception
(nothing stored). -/
def addCronJob (now : Int) (cfg : List Job) (job : Job) : Except String (List Job) :=
  if cfg.any (fun k => k.name.isNone) then Except.error "KeyError: name"
  else
    match job.name with
    | none => Except.error "KeyError: name"
    | some n =>
      if cfg.any (fun k => k.name == some n) then
        Except.error "Job already exists"
      else
        let job₁ :=
          match job.atV with
          | some a =>
            match durationMatch (stripChars a.toList) with
            | some _ =>
              match parseOneShotTime now a with
              | some t => { job with atV := some (isoformat t) }
              | none => job
            | none => job
          | none => job
        Except.ok (cfg ++ [job₁])

/-- Model of the CLI `cron add` command (cli.py lines 751-815), the
only job-creation path: duplicate names, unparseable one-shot times
and invalid cron expressions are rejected before `add_cron_job` is
called. -/
def cronAddCommand (now : Int) (cfg : List Job) (name : String) (oneShot : Bool)
    (atValue : String) (deleteAfter : Bool) (schedule tzName msg : String) :
    Except String (List Job) :=
  if (getCronJob cfg name).isSome then Except.error "Job already exists"
  else if oneShot then
    match parseOneShotTime now atValue with
    | none => Except.error "Invalid time"
    | some _ =>
      addCronJob now cfg
        { name := some name, enabled := some true, schedule := none,
          atV := some atValue, timezone := none,
          delete_after_run := some deleteAfter, message := some msg }
  else if validateCronSchedule schedule = false then
    Except.error "Invalid cron expression"
  else
    addCronJob now cfg
      { name := some name, enabled := some true, schedule := some schedule,
        atV := none, timezone := some tzName,
        delete_after_run := none, message := some msg }

/-! ### The cron scheduler loop -/

/-- In-memory scheduler state of one `run_cron_scheduler` instance:
the `last_run_times` fire record (an association list, most recent
binding first) and the persisted job list (`cron.yaml`). -/
structure SchedState where
  lastRunTimes : List (String × Int)
  store : List Job
deriving DecidableEq

/-- First binding of a name in the fire record. -/
def lookupTime (n : String) : List (String × Int) → Option Int
  | [] => none
  | (k, v) :: rest => if k = n then some v else lookupTime n rest

/-- Firing decision for a one-shot job (cron.py lines 354-362): the
parsed instant has passed and there is no prior fire record. -/
def oneShotDecision (now : Int) (st : SchedState) (jn : String) (a : String) : Bool :=
  match parseOneShotTime now a with
  | some t => decide (t ≤ now) && (lookupTime jn st.lastRunTimes).isNone
  | none => false

/-- Firing decision for a cron job (cron.py lines 363-383): the
schedule matches the current minute and the last recorded fire instant
is absent or earlier than the current truncated UTC minute. -/
def cronDecision (now : Int) (st : SchedState) (j : Job) (jn : String) : Bool :=
  cronJobMatches j now &&
    (match lookupTime jn st.lastRunTimes with
     | none => true
     | some lr => decide (lr < now.ediv 60 * 60))

/-- One-shot post-fire policy (cron.py lines 395-402), applied to the
current store in the same cycle as the firing decision. -/
def oneShotCleanup (st : SchedState) (j : Job) (jn : String) : SchedState :=
  if j.delete_after_run.getD false then { st with store := removeCronJob st.store jn }
  else { st with store := disableCronJob st.store jn }

/-- Evaluation of one job inside a scheduler cycle (cron.py lines
344-402).  Returns the successor state and the dispatched job name, if
any; `create_task` dispatch is fire-and-forget, so a dispatch is just
an event here.  A job without a (nonempty) name is skipped, a job with
`enabled: false` is skipped, and a missing `enabled` defaults to true. -/
def processJob (now : Int) (st : SchedState) (j : Job) : SchedState × Option String :=
  let jn := j.name.getD ""
  if jn = "" then (st, none)
  else if j.enabled.getD true = false then (st, none)
  else
    match j.atV with
    | some a =>
      if oneShotDecision now st jn a then
        let st₁ : SchedState := { st with lastRunTimes := (jn, now) :: st.lastRunTimes }
        (oneShotCleanup st₁ j jn, some jn)
      else (st, none)
    | none =>
      if cronDecision now st j jn then
        ({ st with lastRunTimes := (jn, now.ediv 60 * 60) :: st.lastRunTimes }, some jn)
      else (st, none)

/-- Whether the fault oracle of a cycle makes the evaluation of this
job raise an exception (models an arbitrary runtime error while
evaluating or dispatching one job). -/
def jobFaults (fault : List String) (j : Job) : Bool :=
  match j.name with
  | some n => fault.contains n
  | none => false

/-- One cycle's walk over a snapshot of the job list (cron.py lines
341-404).  The `try`/`except` of `run_cron_scheduler` wraps the whole
`for` loop, so the first faulting job ends the walk: the remaining
jobs of the snapshot are not evaluated, the exception is logged (the
returned flag) and the loop itself survives. -/
def runCycleJobs (fault : List String) (now : Int) :
    SchedState → List Job → SchedState × List String × Bool
  | st, [] => (st, [], false)
  | st, j :: rest =>
    if jobFaults fault j then (st, [], true)
    else
      let r₁ := processJob now st j
      let r₂ := runCycleJobs fault now r₁.1 rest
      (r₂.1, (match r₁.2 with | some n => n :: r₂.2.1 | none => r₂.2.1), r₂.2.2)

/-- One scheduler cycle: load the current job list (`list_cron_jobs`)
and evaluate each job of that snapshot in order. -/
def runCycle (fault : List String) (now : Int) (st : SchedState) :
    SchedState × List String × Bool :=
  runCycleJobs fault now st st.store

/-- Poll interval of the cron scheduler (`CRON_CHECK_INTERVAL_SECONDS`). -/
def cronCheckIntervalSeconds : Nat := 30

/-- Observable inputs of one scheduler cycle: the clock reading, the
stop signal as observed at the top of the loop and during the wait
(`signalDuringWait = some d` means the signal is raised `d` seconds
into the wait), and the fault oracle for this cycle. -/
structure CycleInput where
  now : Int
  stopAtStart : Bool
  signalDuringWait : Option Nat
  faultNames : List String
deriving DecidableEq

/-- Observable outcome of one completed cycle. -/
structure CycleResult where
  dispatches : List String
  erred : Bool
  waitSeconds : Nat
deriving DecidableEq

/-- Model of the `run_cron_scheduler` loop (cron.py lines 340-414)
over a script of cycle inputs.  A set stop signal at the top of the
loop yields no further cycle; a signal raised during the wait ends the
wait after `min d 30` seconds (for `d ≥ 30` the wait times out first
and the top-of-loop check then observes the set signal), and in either
case no later cycle runs. -/
def runLoop : SchedState → List CycleInput → SchedState × List CycleResult
  | st, [] => (st, [])
  | st, c :: rest =>
    if c.stopAtStart then (st, [])
    else
      let r := runCycle c.faultNames c.now st
      match c.signalDuringWait with
      | some d => (r.1, [⟨r.2.1, r.2.2, min d cronCheckIntervalSeconds⟩])
      | none =>
        let r₂ := runLoop r.1 rest
        (r₂.1, ⟨r.2.1, r.2.2, cronCheckIntervalSeconds⟩ :: r₂.2)

/-- All dispatch events of a trace, in order. -/
def allDispatches (tr : List CycleResult) : List String :=
  tr.foldr (fun c acc => c.dispatches ++ acc) []

/-! ### Heartbeat -/

/-- The `active_hours` mapping (`start`/`end` keys, `HH:MM`). -/
structure ActiveHours where
  start : Option String
  stop : Option String
deriving DecidableEq

/-- The `heartbeat` section of a bot's configuration. -/
structure HBConfig where
  enabled : Option Bool
  intervalMinutes : Option Nat
  activeHours : Option ActiveHours
deriving DecidableEq

/-- The slice of a bot configuration the heartbeat loop reads. -/
structure BotCfg where
  heartbeat : Option HBConfig
deriving DecidableEq

/-- Model of `map(int, s.split(":"))` unpacked into two values. -/
def parseTimeOfDay (s : String) : Option (Nat × Nat) :=
  match (splitChars ':' s.toList).map parseNatDigits with
  | [some h, some m] => some (h, m)
  | _ => none

/-- Model of `is_within_active_hours` (heartbeat.py lines 85-112) on a
local wall-clock hour and minute; `none` models the exception raised
on malformed `HH:MM` strings. -/
def isWithinActiveHours (ah : ActiveHours) (nowHour nowMinute : Nat) : Option Bool :=
  match parseTimeOfDay (ah.start.getD "00:00"), parseTimeOfDay (ah.stop.getD "23:59") with
  | some (sh, sm), some (eh, em) =>
    let currentMinutes := nowHour * 60 + nowMinute
    let startMinutes := sh * 60 + sm
    let endMinutes := eh * 60 + em
    if startMinutes ≤ endMinutes then
      some (decide (startMinutes ≤ currentMinutes) && decide (currentMinutes ≤ endMinutes))
    else
      some (decide (currentMinutes ≥ startMinutes) || decide (currentMinutes ≤ endMinutes))
  | _, _ => none

/-- Model of one cycle of `run_heartbeat_scheduler` (heartbeat.py
lines 293-321): re-read the bot configuration (falling back to the
configuration captured at loop start when the read fails), execute
exactly when the fresh `enabled` is true and local time is within the
fresh active-hours window, and derive the next wait from the fresh
`interval_minutes`.  Returns (executed, wait seconds); the exception
path (malformed window) is caught, skips execution and leaves the
previous interval in place. -/
def heartbeatCycle (fallbackCfg : BotCfg) (capturedActiveHours : ActiveHours)
    (loaded : Option BotCfg) (nowHour nowMinute : Nat) (prevIntervalSeconds : Nat) :
    Bool × Nat :=
  let cur := loaded.getD fallbackCfg
  let hb := cur.heartbeat.getD ⟨none, none, none⟩
  if hb.enabled.getD false = false then
    (false, hb.intervalMinutes.getD 30 * 60)
  else
    match isWithinActiveHours (hb.activeHours.getD capturedActiveHours) nowHour nowMinute with
    | some true => (true, hb.intervalMinutes.getD 30 * 60)
    | some false => (false, hb.intervalMinutes.getD 30 * 60)
    | none => (false, prevIntervalSeconds)

example : isWithinActiveHours ⟨some "22:00", some "06:00"⟩ 23 30 = some true := by decide
example : isWithinActiveHours ⟨some "22:00", some "06:00"⟩ 3 0 = some true := by decide
example : isWithinActiveHours ⟨some "22:00", some "06:00"⟩ 12 0 = some false := by decide
example : isWithinActiveHours ⟨some "07:00", some "23:00"⟩ 7 0 = some true := by decide
example : isWithinActiveHours ⟨some "07:00", some "23:00"⟩ 23 0 = some true := by decide

/-! ### Helper lemmas: the next-fire technique -/

/-- A successful next-match search never returns a minute before its
starting point. -/
theorem nextMatchFrom_ge (e : CronExpr) :
    ∀ (fuel : Nat) (m k : Int), nextMatchFrom e m fuel = some k → m ≤ k := by
  intro fuel
  induction fuel with
  | zero => intro m k h; simp [nextMatchFrom] at h
  | succ n ih =>
    intro m k h
    simp only [nextMatchFrom] at h
    split at h
    · cases h; exact le_refl _
    · have := ih (m + 1) k h; omega

/-- The next-fire-minute technique decides exactly direct matching of
the current minute: asking for the next fire strictly after one second
before the current minute and comparing it with the current minute is
the same as asking whether the expression matches the current minute. -/
theorem nextMatchFrom_succ (e : CronExpr) (m : Int) (fuel : Nat) :
    nextMatchFrom e m (fuel + 1) =
      if cronMatches e m then some m else nextMatchFrom e (m + 1) fuel := rfl

/-- The next-fire-minute technique decides exactly direct matching of
the current minute: asking for the next fire strictly after one second
before the current minute and comparing it with the current minute is
the same as asking whether the expression matches the current minute. -/
theorem cronTrick_eq (e : CronExpr) (t : Int) :
    cronScheduleMatchesNow e t = cronMatches e (t.ediv 60) := by
  have h1 : (t.ediv 60 * 60 - 1).ediv 60 + 1 = t.ediv 60 := by
    have h2 : t.ediv 60 * 60 - 1 = 59 + (t.ediv 60 - 1) * 60 := by ring
    rw [h2]
    show (59 + (t.ediv 60 - 1) * 60) / 60 + 1 = t.ediv 60
    rw [Int.add_mul_ediv_right _ _ (by norm_num : (60 : Int) ≠ 0)]
    norm_num
  show (match nextMatchFrom e ((t.ediv 60 * 60 - 1).ediv 60 + 1) searchFuel with
        | some fireMinute => fireMinute == t.ediv 60
        | none => false) = cronMatches e (t.ediv 60)
  rw [h1]
  rw [show searchFuel = 527039 + 1 from rfl, nextMatchFrom_succ]
  by_cases hm : cronMatches e (t.ediv 60) = true
  · rw [if_pos hm, hm]
    simp
  · simp only [Bool.not_eq_true] at hm
    rw [if_neg (by simp [hm]), hm]
    cases h : nextMatchFrom e (t.ediv 60 + 1) 527039 with
    | none => rfl
    | some k =>
      have := nextMatchFrom_ge e 527039 _ k h
      have hk : (k == t.ediv 60) = false := by
        simp only [beq_eq_false_iff_ne, ne_eq]
        omega
      simp [hk]

/-- The all-wildcard expression matches every minute. -/
theorem cronMatches_allstar (m : Int) :
    cronMatches ⟨[.star 1], [.star 1], [.star 1], [.star 1], [.star 1], true, true⟩ m = true := by
  simp [cronMatches, fieldMatches, itemMatches, Nat.mod_one]

/-- C5: the scheduler decides a cron match by truncating local `now`
to its minute, asking the engine for the next fire at or after
`currentMinute` minus one second, and matching exactly when that fire
minute equals `currentMinute` — which is exactly direct matching of
the current minute; consequently `* * * * *` matches every minute, and
`0 6 * * *` with timezone `Asia/Seoul` matches exactly the minutes
that read 06:00 on the Seoul (UTC+9) wall clock. -/
theorem cron_matching_algorithm :
    (∀ (e : CronExpr) (t : Int), cronScheduleMatchesNow e t = cronMatches e (t.ediv 60))
    ∧ (∀ (j : Job) (now : Int), j.schedule = some "* * * * *" → cronJobMatches j now = true)
    ∧ (∀ (j : Job) (now : Int), j.schedule = some "0 6 * * *" →
        j.timezone = some "Asia/Seoul" →
        (cronJobMatches j now = true ↔
          hourOfDay ((now + 32400).ediv 60) = 6 ∧ minuteInHour ((now + 32400).ediv 60) = 0)) := by
  refine ⟨cronTrick_eq, ?_, ?_⟩
  · intro j now hs
    have hp : parseCronExpr "* * * * *" =
        some ⟨[.star 1], [.star 1], [.star 1], [.star 1], [.star 1], true, true⟩ := by decide
    simp [cronJobMatches, hs, validateCronSchedule, hp, cronTrick_eq, cronMatches_allstar]
  · intro j now hs htz
    have hp : parseCronExpr "0 6 * * *" =
        some ⟨[.rng 0 0 1], [.rng 6 6 1], [.star 1], [.star 1], [.star 1], true, true⟩ := by
      decide
    have hoff : resolveJobTimezone j = 540 := by
      simp [resolveJobTimezone, htz, zoneOffsetMinutes]
    rw [show (32400 : Int) = 540 * 60 from rfl]
    simp only [cronJobMatches, hs, validateCronSchedule, hp, Option.isSome_some, if_true,
      hoff, cronTrick_eq]
    simp [cronMatches, fieldMatches, itemMatches, Nat.mod_one]
    omega

/-- Witness for C5: the technique, the all-wildcard expression and the
Seoul daily schedule at concrete instants (75600 s is 1970-01-01 21:00
UTC, i.e. 1970-01-02 06:00 on the Seoul wall clock). -/
theorem cron_matching_algorithm_witness :
    (cronScheduleMatchesNow ⟨[.star 1], [.star 1], [.star 1], [.star 1], [.star 1], true, true⟩ 90
      = cronMatches ⟨[.star 1], [.star 1], [.star 1], [.star 1], [.star 1], true, true⟩
          ((90 : Int).ediv 60))
    ∧ cronJobMatches ⟨some "j", none, some "* * * * *", none, none, none, none⟩ 30 = true
    ∧ (cronJobMatches ⟨some "m", none, some "0 6 * * *", none, some "Asia/Seoul", none, none⟩
          75600 = true ↔
        hourOfDay (((75600 : Int) + 32400).ediv 60) = 6
          ∧ minuteInHour (((75600 : Int) + 32400).ediv 60) = 0) :=
  ⟨cron_matching_algorithm.1 _ 90,
   cron_matching_algorithm.2.1 _ 30 rfl,
   cron_matching_algorithm.2.2 _ 75600 rfl rfl⟩

/-- C10: a job record without an `enabled` field is evaluated exactly
as if `enabled` were true, and only an explicit `enabled: false`
excludes a job from evaluation. -/
theorem missing_enabled_defaults_true (now : Int) (st : SchedState) (j : Job) :
    processJob now st { j with enabled := none }
        = processJob now st { j with enabled := some true }
    ∧ processJob now st { j with enabled := some false } = (st, none) := by
  constructor
  · cases j
    simp [processJob, oneShotCleanup, cronDecision, cronJobMatches, resolveJobTimezone]
  · cases j with
    | mk name enabled schedule atV tz dar msg =>
      by_cases h : name.getD "" = ""
      · simp [processJob, h]
      · simp [processJob, h]

/-- C6: the active-hours check is inclusive on both boundaries for a
normal window, wraps for an overnight window, and a window with
`start == end` is a degenerate single-minute window, not an
always-active one. -/
theorem active_hours_window (startS endS : String) (sh sm eh em nh nm : Nat)
    (hs : parseTimeOfDay startS = some (sh, sm))
    (he : parseTimeOfDay endS = some (eh, em)) :
    ∃ r, isWithinActiveHours ⟨some startS, some endS⟩ nh nm = some r
      ∧ (sh * 60 + sm ≤ eh * 60 + em →
          (r = true ↔ sh * 60 + sm ≤ nh * 60 + nm ∧ nh * 60 + nm ≤ eh * 60 + em))
      ∧ (eh * 60 + em < sh * 60 + sm →
          (r = true ↔ sh * 60 + sm ≤ nh * 60 + nm ∨ nh * 60 + nm ≤ eh * 60 + em))
      ∧ (sh * 60 + sm = eh * 60 + em → (r = true ↔ nh * 60 + nm = sh * 60 + sm)) := by
  unfold isWithinActiveHours
  simp only [Option.getD_some]
  rw [hs, he]
  by_cases hle : sh * 60 + sm ≤ eh * 60 + em
  · refine ⟨decide (sh * 60 + sm ≤ nh * 60 + nm) && decide (nh * 60 + nm ≤ eh * 60 + em),
      by simp [hle], ?_, ?_, ?_⟩
    · intro _
      simp
    · intro hlt
      omega
    · intro heq
      simp only [Bool.and_eq_true, decide_eq_true_eq]
      omega
  · refine ⟨decide (nh * 60 + nm ≥ sh * 60 + sm) || decide (nh * 60 + nm ≤ eh * 60 + em),
      by simp [hle], ?_, ?_, ?_⟩
    · intro h
      omega
    · intro _
      simp only [Bool.or_eq_true, decide_eq_true_eq, ge_iff_le]
    · intro heq
      omega

/-- Witness for C6: the overnight window 22:00-06:00 at 23:30 local
time, with both window strings parsed concretely. -/
theorem active_hours_window_witness :
    parseTimeOfDay "22:00" = some (22, 0) ∧ parseTimeOfDay "06:00" = some (6, 0)
    ∧ ∃ r, isWithinActiveHours ⟨some "22:00", some "06:00"⟩ 23 30 = some r
      ∧ (22 * 60 + 0 ≤ 6 * 60 + 0 →
          (r = true ↔ 22 * 60 + 0 ≤ 23 * 60 + 30 ∧ 23 * 60 + 30 ≤ 6 * 60 + 0))
      ∧ (6 * 60 + 0 < 22 * 60 + 0 →
          (r = true ↔ 22 * 60 + 0 ≤ 23 * 60 + 30 ∨ 23 * 60 + 30 ≤ 6 * 60 + 0))
      ∧ (22 * 60 + 0 = 6 * 60 + 0 → (r = true ↔ 23 * 60 + 30 = 22 * 60 + 0)) :=
  ⟨rfl, rfl, active_hours_window "22:00" "06:00" 22 0 6 0 23 30 rfl rfl⟩

/-- C8: every heartbeat cycle is driven by the freshly loaded
configuration: it executes exactly when the fresh `enabled` is true
and local time is within the fresh `active_hours` window, and the
following wait comes from the fresh `interval_minutes`; the
configuration captured at loop start and the previous interval do not
matter. -/
theorem heartbeat_uses_fresh_config (fallback : BotCfg) (captured : ActiveHours)
    (cfg : BotCfg) (hb : HBConfig) (w : ActiveHours) (nh nm prev : Nat) (b : Bool)
    (h1 : cfg.heartbeat = some hb) (h2 : hb.activeHours = some w)
    (h3 : isWithinActiveHours w nh nm = some b) :
    heartbeatCycle fallback captured (some cfg) nh nm prev
      = (hb.enabled.getD false && b, hb.intervalMinutes.getD 30 * 60) := by
  unfold heartbeatCycle
  simp only [Option.getD_some, h1, h2]
  by_cases hen : hb.enabled.getD false = false
  · simp [hen]
  · simp only [Bool.not_eq_false] at hen
    rw [hen]
    simp only [Bool.true_eq_false, if_false, h3, Bool.true_and]
    cases b
    · simp
    · simp

/-- Witness for C8: a freshly loaded enabled configuration with a
15-minute interval, inside its window, against different captured
values. -/
theorem heartbeat_uses_fresh_config_witness :
    isWithinActiveHours ⟨some "07:00", some "23:00"⟩ 10 0 = some true
    ∧ heartbeatCycle ⟨none⟩ ⟨some "00:00", some "00:01"⟩
        (some ⟨some ⟨some true, some 15, some ⟨some "07:00", some "23:00"⟩⟩⟩) 10 0 1800
      = ((some true).getD false && true, (some 15).getD 30 * 60) :=
  ⟨by decide,
   heartbeat_uses_fresh_config ⟨none⟩ ⟨some "00:00", some "00:01"⟩
     ⟨some ⟨some true, some 15, some ⟨some "07:00", some "23:00"⟩⟩⟩
     ⟨some true, some 15, some ⟨some "07:00", some "23:00"⟩⟩
     ⟨some "07:00", some "23:00"⟩ 10 0 1800 true rfl rfl (by decide)⟩

/-! ### Helper lemmas: relative-duration versus absolute ISO values -/

/-- Digit characters are not whitespace. -/
theorem digitChar_not_space (k : Nat) : isSpaceChar (digitChar k) = false := by
  unfold digitChar isSpaceChar
  have h : k % 10 < 10 := Nat.mod_lt _ (by norm_num)
  set d := k % 10 with hd
  interval_cases d <;> decide

/-- The split of a nonempty list into its front and last character. -/
theorem durationSplit_eq_getLast (l : List Char) :
    durationSplit l = l.getLast?.map (fun c => (l.dropLast, c)) := by
  induction l with
  | nil => rfl
  | cons x xs ih =>
    cases xs with
    | nil => rfl
    | cons y ys =>
      show (match durationSplit (y :: ys) with
            | some (ds, u) => some (x :: ds, u)
            | none => none) = _
      rw [ih, List.getLast?_cons_cons]
      cases h : (y :: ys).getLast? with
      | none => rfl
      | some c => simp [List.dropLast]

/-- An `isoformat` rendering starts with a digit character. -/
theorem isoformat_head (t : Int) :
    ∃ k r, isoformatChars t = digitChar k :: r := ⟨_, _, rfl⟩

/-- An `isoformat` rendering ends with the character `0`. -/
theorem isoformat_getLast (t : Int) : (isoformatChars t).getLast? = some '0' := by
  simp [isoformatChars, pad4, pad2, List.cons_append, List.getLast?_append_cons,
    List.getLast?_cons_cons]

/-- Stripping whitespace leaves an `isoformat` rendering unchanged. -/
theorem stripChars_isoformat (t : Int) :
    stripChars (isoformatChars t) = isoformatChars t := by
  obtain ⟨k, r, hk⟩ := isoformat_head t
  have hr2 : (isoformatChars t).dropLast ++ ['0'] = isoformatChars t :=
    List.dropLast_append_getLast? '0' (by rw [isoformat_getLast]; rfl)
  unfold stripChars
  have hfront : (isoformatChars t).dropWhile isSpaceChar = isoformatChars t := by
    rw [hk]
    simp [List.dropWhile_cons, digitChar_not_space]
  rw [hfront]
  have hrev : (isoformatChars t).reverse = '0' :: (isoformatChars t).dropLast.reverse := by
    conv => lhs; rw [← hr2]
    simp
  rw [hrev]
  have h0 : isSpaceChar '0' = false := by decide
  simp only [List.dropWhile_cons, h0, Bool.false_eq_true, if_false]
  rw [← hrev, List.reverse_reverse]

/-- The duration-shorthand pattern never matches an `isoformat`
rendering (its last character is a digit, not a unit letter). -/
theorem durationMatch_isoformat (t : Int) :
    durationMatch (stripChars (isoformatChars t)) = none := by
  rw [stripChars_isoformat]
  unfold durationMatch
  rw [durationSplit_eq_getLast, isoformat_getLast]
  simp

/-! ### Helper lemmas: per-job evaluation -/

theorem lookupTime_cons (n k : String) (v : Int) (l : List (String × Int)) :
    lookupTime n ((k, v) :: l) = if k = n then some v else lookupTime n l := rfl

/-- Case equation: a job without a (nonempty) name is skipped. -/
theorem processJob_skip_name (now : Int) (st : SchedState) (j : Job)
    (h : j.name.getD "" = "") : processJob now st j = (st, none) := by
  unfold processJob
  simp [h]

/-- Case equation: an explicitly disabled job is skipped. -/
theorem processJob_skip_disabled (now : Int) (st : SchedState) (j : Job)
    (h : j.enabled.getD true = false) : processJob now st j = (st, none) := by
  unfold processJob
  by_cases h2 : j.name.getD "" = "" <;> simp [h, h2]

/-- Case equation: a firing one-shot job records `now`, is dispatched,
and the cleanup policy is applied in the same step. -/
theorem processJob_oneshot_pos (now : Int) (st : SchedState) (j : Job) (a : String)
    (hjn : ¬ j.name.getD "" = "") (hen : ¬ j.enabled.getD true = false)
    (ha : j.atV = some a)
    (hd : oneShotDecision now st (j.name.getD "") a = true) :
    processJob now st j =
      (oneShotCleanup { st with lastRunTimes := (j.name.getD "", now) :: st.lastRunTimes }
         j (j.name.getD ""), some (j.name.getD "")) := by
  unfold processJob
  simp [hjn, hen, ha, hd]

/-- Case equation: a non-firing one-shot job leaves the state alone. -/
theorem processJob_oneshot_neg (now : Int) (st : SchedState) (j : Job) (a : String)
    (ha : j.atV = some a)
    (hd : ¬ oneShotDecision now st (j.name.getD "") a = true) :
    processJob now st j = (st, none) := by
  unfold processJob
  by_cases h2 : j.name.getD "" = "" <;>
    by_cases h3 : j.enabled.getD true = false <;> simp [h2, h3, ha, hd]

/-- Case equation: a firing cron job records the truncated UTC minute
and is dispatched. -/
theorem processJob_cron_pos (now : Int) (st : SchedState) (j : Job)
    (hjn : ¬ j.name.getD "" = "") (hen : ¬ j.enabled.getD true = false)
    (ha : j.atV = none)
    (hd : cronDecision now st j (j.name.getD "") = true) :
    processJob now st j =
      ({ st with lastRunTimes := (j.name.getD "", now.ediv 60 * 60) :: st.lastRunTimes },
       some (j.name.getD "")) := by
  unfold processJob
  simp [hjn, hen, ha, hd]

/-- Case equation: a non-firing cron job leaves the state alone. -/
theorem processJob_cron_neg (now : Int) (st : SchedState) (j : Job)
    (ha : j.atV = none)
    (hd : ¬ cronDecision now st j (j.name.getD "") = true) :
    processJob now st j = (st, none) := by
  unfold processJob
  by_cases h2 : j.name.getD "" = "" <;>
    by_cases h3 : j.enabled.getD true = false <;> simp [h2, h3, ha, hd]

/-- The one-shot cleanup never touches the fire record. -/
theorem oneShotCleanup_lastRunTimes (st : SchedState) (j : Job) (jn : String) :
    (oneShotCleanup st j jn).lastRunTimes = st.lastRunTimes := by
  unfold oneShotCleanup
  split <;> rfl

/-- A job evaluation that dispatches nothing leaves the state alone. -/
theorem processJob_none_state (now : Int) (st : SchedState) (j : Job)
    (h : (processJob now st j).2 = none) : (processJob now st j).1 = st := by
  by_cases h1 : j.name.getD "" = ""
  · rw [processJob_skip_name now st j h1]
  · by_cases h2 : j.enabled.getD true = false
    · rw [processJob_skip_disabled now st j h2]
    · cases ha : j.atV with
      | some a =>
        by_cases hd : oneShotDecision now st (j.name.getD "") a = true
        · rw [processJob_oneshot_pos now st j a h1 h2 ha hd] at h
          simp at h
        · rw [processJob_oneshot_neg now st j a ha hd]
      | none =>
        by_cases hd : cronDecision now st j (j.name.getD "") = true
        · rw [processJob_cron_pos now st j h1 h2 ha hd] at h
          simp at h
        · rw [processJob_cron_neg now st j ha hd]

/-- A dispatch event carries the job's own nonempty name. -/
theorem processJob_dispatch_name (now : Int) (st : SchedState) (j : Job) (x : String)
    (h : (processJob now st j).2 = some x) : j.name.getD "" = x ∧ x ≠ "" := by
  by_cases h1 : j.name.getD "" = ""
  · rw [processJob_skip_name now st j h1] at h
    simp at h
  · by_cases h2 : j.enabled.getD true = false
    · rw [processJob_skip_disabled now st j h2] at h
      simp at h
    · cases ha : j.atV with
      | some a =>
        by_cases hd : oneShotDecision now st (j.name.getD "") a = true
        · rw [processJob_oneshot_pos now st j a h1 h2 ha hd] at h
          simp at h
          exact ⟨h, h ▸ h1⟩
        · rw [processJob_oneshot_neg now st j a ha hd] at h
          simp at h
      | none =>
        by_cases hd : cronDecision now st j (j.name.getD "") = true
        · rw [processJob_cron_pos now st j h1 h2 ha hd] at h
          simp at h
          exact ⟨h, h ▸ h1⟩
        · rw [processJob_cron_neg now st j ha hd] at h
          simp at h

/-- Evaluating a job with a different name neither changes the fire
record of `n` nor dispatches `n`. -/
theorem processJob_other_name (now : Int) (st : SchedState) (j : Job) (n : String)
    (hjn : j.name.getD "" ≠ n) :
    lookupTime n (processJob now st j).1.lastRunTimes = lookupTime n st.lastRunTimes
    ∧ (processJob now st j).2 ≠ some n := by
  by_cases h1 : j.name.getD "" = ""
  · rw [processJob_skip_name now st j h1]
    simp
  · by_cases h2 : j.enabled.getD true = false
    · rw [processJob_skip_disabled now st j h2]
      simp
    · cases ha : j.atV with
      | some a =>
        by_cases hd : oneShotDecision now st (j.name.getD "") a = true
        · rw [processJob_oneshot_pos now st j a h1 h2 ha hd]
          refine ⟨?_, by simp [hjn]⟩
          rw [oneShotCleanup_lastRunTimes]
          show (if j.name.getD "" = n then some now else lookupTime n st.lastRunTimes) = _
          rw [if_neg hjn]
        · rw [processJob_oneshot_neg now st j a ha hd]
          simp
      | none =>
        by_cases hd : cronDecision now st j (j.name.getD "") = true
        · rw [processJob_cron_pos now st j h1 h2 ha hd]
          refine ⟨?_, by simp [hjn]⟩
          show (if j.name.getD "" = n then some (now.ediv 60 * 60)
                else lookupTime n st.lastRunTimes) = _
          rw [if_neg hjn]
        · rw [processJob_cron_neg now st j ha hd]
          simp

/-- A job named `n` is suppressed whenever the recorded fire instant of
`n` is at least the current truncated UTC minute (the FireGuard rule:
a candidate minute not later than the recorded instant is rejected),
for the one-shot and the cron path alike. -/
theorem processJob_suppressed_high (now : Int) (st : SchedState) (j : Job) (n : String)
    (t : Int) (hn : j.name = some n)
    (hlk : lookupTime n st.lastRunTimes = some t)
    (hge : now.ediv 60 * 60 ≤ t) :
    processJob now st j = (st, none) := by
  have hjn : j.name.getD "" = n := by rw [hn]; rfl
  by_cases h1 : j.name.getD "" = ""
  · exact processJob_skip_name now st j h1
  · by_cases h2 : j.enabled.getD true = false
    · exact processJob_skip_disabled now st j h2
    · cases ha : j.atV with
      | some a =>
        refine processJob_oneshot_neg now st j a ha ?_
        unfold oneShotDecision
        rw [hjn, hlk]
        cases parseOneShotTime now a <;> simp
      | none =>
        refine processJob_cron_neg now st j ha ?_
        unfold cronDecision
        rw [hjn, hlk]
        simp only [Bool.and_eq_true, decide_eq_true_eq]
        intro hc
        omega

/-- A one-shot job named `n` is suppressed by the mere presence of a
fire record for `n`, whatever its value. -/
theorem processJob_oneshot_suppressed (now : Int) (st : SchedState) (j : Job)
    (n : String) (a : String) (t : Int) (hn : j.name = some n) (ha : j.atV = some a)
    (hlk : lookupTime n st.lastRunTimes = some t) :
    processJob now st j = (st, none) := by
  have hjn : j.name.getD "" = n := by rw [hn]; rfl
  by_cases h1 : j.name.getD "" = ""
  · exact processJob_skip_name now st j h1
  · by_cases h2 : j.enabled.getD true = false
    · exact processJob_skip_disabled now st j h2
    · refine processJob_oneshot_neg now st j a ha ?_
      unfold oneShotDecision
      rw [hjn, hlk]
      cases parseOneShotTime now a <;> simp

/-- The truncated minute of an instant is not later than the instant. -/
theorem truncMinute_le (a : Int) : a.ediv 60 * 60 ≤ a := by
  have h1 : 60 * a.ediv 60 + a.emod 60 = a := Int.ediv_add_emod a 60
  have h2 : 0 ≤ a.emod 60 := Int.emod_nonneg a (by norm_num)
  omega

/-- A dispatch of `x` leaves a fire record for `x` whose value is at
least the current truncated UTC minute. -/
theorem processJob_dispatch_record (now : Int) (st : SchedState) (j : Job) (x : String)
    (h : (processJob now st j).2 = some x) :
    ∃ t, lookupTime x (processJob now st j).1.lastRunTimes = some t
      ∧ now.ediv 60 * 60 ≤ t := by
  by_cases h1 : j.name.getD "" = ""
  · rw [processJob_skip_name now st j h1] at h
    simp at h
  · by_cases h2 : j.enabled.getD true = false
    · rw [processJob_skip_disabled now st j h2] at h
      simp at h
    · cases ha : j.atV with
      | some a =>
        by_cases hd : oneShotDecision now st (j.name.getD "") a = true
        · have heq := processJob_oneshot_pos now st j a h1 h2 ha hd
          rw [heq] at h ⊢
          simp at h
          refine ⟨now, ?_, truncMinute_le now⟩
          simp only [oneShotCleanup_lastRunTimes]
          show (if j.name.getD "" = x then some now else _) = some now
          rw [if_pos h]
        · rw [processJob_oneshot_neg now st j a ha hd] at h
          simp at h
      | none =>
        by_cases hd : cronDecision now st j (j.name.getD "") = true
        · have heq := processJob_cron_pos now st j h1 h2 ha hd
          rw [heq] at h ⊢
          simp at h
          refine ⟨now.ediv 60 * 60, ?_, le_refl _⟩
          show (if j.name.getD "" = x then some (now.ediv 60 * 60) else _)
              = some (now.ediv 60 * 60)
          rw [if_pos h]
        · rw [processJob_cron_neg now st j ha hd] at h
          simp at h

/-- Evaluating a job preserves the presence of any fire record. -/
theorem processJob_lookup_isSome (now : Int) (st : SchedState) (j : Job) (n : String)
    (h : (lookupTime n st.lastRunTimes).isSome) :
    (lookupTime n (processJob now st j).1.lastRunTimes).isSome := by
  by_cases hjn : j.name.getD "" = n
  · cases hd : (processJob now st j).2 with
    | none => rw [processJob_none_state now st j hd]; exact h
    | some x =>
      obtain ⟨t, ht, _⟩ := processJob_dispatch_record now st j x hd
      obtain ⟨hx, _⟩ := processJob_dispatch_name now st j x hd
      rw [hjn] at hx
      rw [← hx] at ht
      rw [ht]
      rfl
  · rw [(processJob_other_name now st j n hjn).1]
    exact h

/-! ### Helper lemmas: the FireGuard across a cycle and the loop -/

/-- The fire record of `n` holds an instant at least `b`. -/
def recordHigh (b : Int) (n : String) (st : SchedState) : Prop :=
  ∃ t, lookupTime n st.lastRunTimes = some t ∧ b ≤ t

theorem runCycleJobs_cons (fault : List String) (now : Int) (st : SchedState)
    (j : Job) (rest : List Job) :
    runCycleJobs fault now st (j :: rest) =
      if jobFaults fault j then (st, [], true)
      else ((runCycleJobs fault now (processJob now st j).1 rest).1,
            (match (processJob now st j).2 with
             | some x => x :: (runCycleJobs fault now (processJob now st j).1 rest).2.1
             | none => (runCycleJobs fault now (processJob now st j).1 rest).2.1),
            (runCycleJobs fault now (processJob now st j).1 rest).2.2) := rfl

theorem allDispatches_cons (c : CycleResult) (tr : List CycleResult) :
    allDispatches (c :: tr) = c.dispatches ++ allDispatches tr := rfl

/-- A dispatching job leaves a high record for the dispatched name. -/
theorem processJob_dispatch_high (now : Int) (st : SchedState) (j : Job) (n : String)
    (hd : (processJob now st j).2 = some n) :
    recordHigh (now.ediv 60 * 60) n (processJob now st j).1 := by
  obtain ⟨t, ht, hge⟩ := processJob_dispatch_record now st j n hd
  exact ⟨t, ht, hge⟩

/-- Within one cycle whose clock reads in the minute of `b`: a high
record suppresses every dispatch of `n` and stays high; `n` is
dispatched at most once; and a dispatch of `n` leaves a high record. -/
theorem runCycleJobs_once (fault : List String) (now : Int) (n : String) (b : Int)
    (hnow : now.ediv 60 * 60 = b) :
    ∀ (jobs : List Job) (st : SchedState),
      (recordHigh b n st → (runCycleJobs fault now st jobs).2.1.count n = 0
        ∧ recordHigh b n (runCycleJobs fault now st jobs).1)
      ∧ (runCycleJobs fault now st jobs).2.1.count n ≤ 1
      ∧ (1 ≤ (runCycleJobs fault now st jobs).2.1.count n →
          recordHigh b n (runCycleJobs fault now st jobs).1) := by
  intro jobs
  induction jobs with
  | nil =>
    intro st
    refine ⟨fun hh => ⟨rfl, hh⟩, by simp [runCycleJobs], ?_⟩
    intro h
    simp [runCycleJobs] at h
  | cons j rest ih =>
    intro st
    rw [runCycleJobs_cons]
    by_cases hf : jobFaults fault j = true
    · rw [if_pos hf]
      refine ⟨fun hh => ⟨rfl, hh⟩, by simp, ?_⟩
      intro h
      simp at h
    · rw [if_neg hf]
      cases hd : (processJob now st j).2 with
      | none =>
        have hst : (processJob now st j).1 = st := processJob_none_state _ _ _ hd
        rw [hst]
        exact ih st
      | some x =>
        by_cases hx : x = n
        · rw [hx] at hd
          have hhigh : recordHigh b n (processJob now st j).1 := by
            rw [← hnow]
            exact processJob_dispatch_high now st j n hd
          have hrest := ih (processJob now st j).1
          refine ⟨?_, ?_, ?_⟩
          · intro hh
            obtain ⟨t, ht, hge⟩ := hh
            obtain ⟨hgn, hne⟩ := processJob_dispatch_name now st j n hd
            have hname : j.name = some n := by
              cases hjn : j.name with
              | none => rw [hjn] at hgn; simp at hgn; exact absurd hgn.symm hne
              | some y => rw [hjn] at hgn; simp at hgn; rw [hgn]
            have := processJob_suppressed_high now st j n t hname ht (hnow ▸ hge)
            rw [this] at hd
            simp at hd
          · rw [hx]
            simp only [List.count_cons, beq_self_eq_true, if_true]
            have := (hrest.1 hhigh).1
            omega
          · intro _
            have := (hrest.1 hhigh).2
            exact this
        · have hgn := (processJob_dispatch_name now st j x hd).1
          have hjn : j.name.getD "" ≠ n := by rw [hgn]; exact hx
          have hpres := (processJob_other_name now st j n hjn).1
          have hrest := ih (processJob now st j).1
          have hcount : ∀ l : List String, (x :: l).count n = l.count n := by
            intro l
            simp [List.count_cons, hx]
          refine ⟨?_, ?_, ?_⟩
          · intro hh
            obtain ⟨t, ht, hge⟩ := hh
            have hh₂ : recordHigh b n (processJob now st j).1 := ⟨t, hpres ▸ ht, hge⟩
            have := hrest.1 hh₂
            rw [hcount]
            exact this
          · rw [hcount]
            exact hrest.2.1
          · rw [hcount]
            exact hrest.2.2

theorem runLoop_cons (st : SchedState) (c : CycleInput) (rest : List CycleInput) :
    runLoop st (c :: rest) =
      if c.stopAtStart then (st, [])
      else
        match c.signalDuringWait with
        | some d =>
          ((runCycle c.faultNames c.now st).1,
           [⟨(runCycle c.faultNames c.now st).2.1, (runCycle c.faultNames c.now st).2.2,
             min d cronCheckIntervalSeconds⟩])
        | none =>
          ((runLoop (runCycle c.faultNames c.now st).1 rest).1,
           ⟨(runCycle c.faultNames c.now st).2.1, (runCycle c.faultNames c.now st).2.2,
             cronCheckIntervalSeconds⟩ :: (runLoop (runCycle c.faultNames c.now st).1 rest).2) := rfl

theorem allDispatches_singleton (c : CycleResult) : allDispatches [c] = c.dispatches := by
  simp [allDispatches]

/-- Across any run whose cycle clocks all read in minute `m`: a high
record keeps `n` from dispatching and stays high; `n` is dispatched at
most once; a dispatch leaves a high record. -/
theorem runLoop_once (n : String) (m : Int) :
    ∀ (inputs : List CycleInput) (st : SchedState),
      (∀ c ∈ inputs, c.now.ediv 60 = m) →
      (recordHigh (m * 60) n st →
         (allDispatches (runLoop st inputs).2).count n = 0
         ∧ recordHigh (m * 60) n (runLoop st inputs).1)
      ∧ (allDispatches (runLoop st inputs).2).count n ≤ 1
      ∧ (1 ≤ (allDispatches (runLoop st inputs).2).count n →
          recordHigh (m * 60) n (runLoop st inputs).1) := by
  intro inputs
  induction inputs with
  | nil =>
    intro st _
    refine ⟨fun hh => ⟨rfl, hh⟩, by simp [runLoop, allDispatches], ?_⟩
    intro h
    simp [runLoop, allDispatches] at h
  | cons c rest ih =>
    intro st hmin
    have hc : c.now.ediv 60 * 60 = m * 60 := by
      rw [hmin c (List.mem_cons_self c rest)]
    have hcyc : (recordHigh (m * 60) n st →
          (runCycle c.faultNames c.now st).2.1.count n = 0
          ∧ recordHigh (m * 60) n (runCycle c.faultNames c.now st).1)
        ∧ (runCycle c.faultNames c.now st).2.1.count n ≤ 1
        ∧ (1 ≤ (runCycle c.faultNames c.now st).2.1.count n →
            recordHigh (m * 60) n (runCycle c.faultNames c.now st).1) :=
      runCycleJobs_once c.faultNames c.now n (m * 60) hc st.store st
    rw [runLoop_cons]
    by_cases hstop : c.stopAtStart = true
    · rw [if_pos hstop]
      refine ⟨fun hh => ⟨rfl, hh⟩, by simp [allDispatches], ?_⟩
      intro h
      simp [allDispatches] at h
    · rw [if_neg hstop]
      cases hsig : c.signalDuringWait with
      | some d =>
        simp only [allDispatches_singleton]
        exact hcyc
      | none =>
        have hrest := ih (runCycle c.faultNames c.now st).1
          (fun c₂ h₂ => hmin c₂ (List.mem_cons_of_mem c h₂))
        simp only [allDispatches_cons, List.count_append]
        refine ⟨?_, ?_, ?_⟩
        · intro hh
          obtain ⟨h1, h2⟩ := hcyc.1 hh
          obtain ⟨h3, h4⟩ := hrest.1 h2
          refine ⟨?_, h4⟩
          omega
        · rcases Nat.eq_zero_or_pos ((runCycle c.faultNames c.now st).2.1.count n) with h0 | h1
          · have := hrest.2.1
            omega
          · have hhigh := hcyc.2.2 h1
            have h3 := (hrest.1 hhigh).1
            have hb := hcyc.2.1
            omega
        · intro hpos
          rcases Nat.eq_zero_or_pos ((runCycle c.faultNames c.now st).2.1.count n) with h0 | h1
          · have h2 : 1 ≤ (allDispatches (runLoop (runCycle c.faultNames c.now st).1 rest).2).count n := by
              omega
            exact hrest.2.2 h2
          · have hhigh := hcyc.2.2 h1
            exact (hrest.1 hhigh).2

/-- C1: across any number of consecutive scheduler cycles whose clock
readings fall within the same UTC minute `m`, a given job name is
dispatched at most once; and (the FireGuard rule behind it) a job
whose recorded fire instant is not earlier than the current truncated
UTC minute is suppressed. -/
theorem cron_at_most_once_per_minute (st : SchedState) (inputs : List CycleInput)
    (n : String) (m : Int)
    (hmin : ∀ c ∈ inputs, c.now.ediv 60 = m) :
    (allDispatches (runLoop st inputs).2).count n ≤ 1
    ∧ (∀ (now : Int) (st₂ : SchedState) (j : Job) (t : Int), j.name = some n →
        lookupTime n st₂.lastRunTimes = some t → now.ediv 60 * 60 ≤ t →
        processJob now st₂ j = (st₂, none)) :=
  ⟨(runLoop_once n m inputs st hmin).2.1,
   fun now st₂ j t h1 h2 h3 => processJob_suppressed_high now st₂ j n t h1 h2 h3⟩

/-- Witness for C1: a `* * * * *` job polled three times inside UTC
minute 0 (at 10 s, 30 s and 50 s) is dispatched at most once. -/
theorem cron_at_most_once_per_minute_witness :
    (∀ c ∈ [(⟨10, false, none, []⟩ : CycleInput), ⟨30, false, none, []⟩,
        ⟨50, false, none, []⟩], c.now.ediv 60 = 0)
    ∧ ((allDispatches (runLoop ⟨[], [⟨some "j", none, some "* * * * *", none, none, none, none⟩]⟩
          [⟨10, false, none, []⟩, ⟨30, false, none, []⟩, ⟨50, false, none, []⟩]).2).count "j" ≤ 1
      ∧ (∀ (now : Int) (st₂ : SchedState) (j : Job) (t : Int), j.name = some "j" →
          lookupTime "j" st₂.lastRunTimes = some t → now.ediv 60 * 60 ≤ t →
          processJob now st₂ j = (st₂, none))) :=
  ⟨by decide,
   cron_at_most_once_per_minute ⟨[], [⟨some "j", none, some "* * * * *", none, none, none, none⟩]⟩
     [⟨10, false, none, []⟩, ⟨30, false, none, []⟩, ⟨50, false, none, []⟩] "j" 0 (by decide)⟩

/-! ### Helper lemmas: the stop signal -/

/-- A run whose inputs never raise the stop signal produces one cycle
result per input. -/
theorem runLoop_length (pre : List CycleInput) :
    ∀ (st : SchedState),
      (∀ p ∈ pre, p.stopAtStart = false ∧ p.signalDuringWait = none) →
      (runLoop st pre).2.length = pre.length := by
  induction pre with
  | nil => intro st _; rfl
  | cons p pre ih =>
    intro st hpre
    obtain ⟨h1, h2⟩ := hpre p (List.mem_cons_self p pre)
    rw [runLoop_cons, if_neg (by rw [h1]; simp), h2]
    simp only [List.length_cons]
    rw [ih _ (fun q hq => hpre q (List.mem_cons_of_mem p hq))]

/-- The trace of a run that is stopped during the wait of the cycle
after `pre` consists of the `pre` cycles followed by that one cycle. -/
theorem runLoop_stop_split (pre : List CycleInput) :
    ∀ (st : SchedState) (c : CycleInput) (rest : List CycleInput) (d : Nat),
      (∀ p ∈ pre, p.stopAtStart = false ∧ p.signalDuringWait = none) →
      c.stopAtStart = false → c.signalDuringWait = some d →
      (runLoop st (pre ++ c :: rest)).2
        = (runLoop st pre).2 ++
          [⟨(runCycle c.faultNames c.now (runLoop st pre).1).2.1,
            (runCycle c.faultNames c.now (runLoop st pre).1).2.2,
            min d cronCheckIntervalSeconds⟩] := by
  induction pre with
  | nil =>
    intro st c rest d _ hstop hsig
    rw [List.nil_append, runLoop_cons, if_neg (by rw [hstop]; simp), hsig]
    rfl
  | cons p pre ih =>
    intro st c rest d hpre hstop hsig
    obtain ⟨h1, h2⟩ := hpre p (List.mem_cons_self p pre)
    have hpre₂ := fun q hq => hpre q (List.mem_cons_of_mem p hq)
    rw [List.cons_append, runLoop_cons, if_neg (by rw [h1]; simp), h2,
      runLoop_cons, if_neg (by rw [h1]; simp), h2]
    simp only [List.cons_append]
    rw [ih _ c rest d hpre₂ hstop hsig]

/-- C9: once the stop signal is raised, the loop terminates without a
further evaluation cycle: with signal-free cycles `pre` and the signal
raised `d` seconds into the wait of the following cycle, the trace is
exactly the `pre` cycles plus that cycle, the final wait lasts
`min d 30 ≤ 30` seconds (ending early when `d < 30`), and nothing from
`rest` is ever evaluated or dispatched. -/
theorem stop_signal_ends_loop (st : SchedState) (pre : List CycleInput)
    (c : CycleInput) (rest : List CycleInput) (d : Nat)
    (hpre : ∀ p ∈ pre, p.stopAtStart = false ∧ p.signalDuringWait = none)
    (hstop : c.stopAtStart = false) (hsig : c.signalDuringWait = some d) :
    (runLoop st (pre ++ c :: rest)).2
      = (runLoop st pre).2 ++
        [⟨(runCycle c.faultNames c.now (runLoop st pre).1).2.1,
          (runCycle c.faultNames c.now (runLoop st pre).1).2.2,
          min d cronCheckIntervalSeconds⟩]
    ∧ (runLoop st (pre ++ c :: rest)).2.length = pre.length + 1
    ∧ min d cronCheckIntervalSeconds ≤ cronCheckIntervalSeconds
    ∧ (d < cronCheckIntervalSeconds → min d cronCheckIntervalSeconds = d) := by
  have hspl := runLoop_stop_split pre st c rest d hpre hstop hsig
  refine ⟨hspl, ?_, Nat.min_le_right _ _, fun hd => Nat.min_eq_left (Nat.le_of_lt hd)⟩
  rw [hspl]
  simp only [List.length_append, List.length_singleton]
  rw [runLoop_length pre st hpre]

/-- Witness for C9: one signal-free cycle, then a signal 7 seconds
into the second cycle's wait; the trace has exactly two cycles and the
final wait lasts 7 seconds. -/
theorem stop_signal_ends_loop_witness :
    (∀ p ∈ [(⟨10, false, none, []⟩ : CycleInput)],
        p.stopAtStart = false ∧ p.signalDuringWait = none)
    ∧ (⟨70, false, some 7, []⟩ : CycleInput).stopAtStart = false
    ∧ (⟨70, false, some 7, []⟩ : CycleInput).signalDuringWait = some 7
    ∧ ((runLoop ⟨[], [⟨some "j", none, some "* * * * *", none, none, none, none⟩]⟩
          ([⟨10, false, none, []⟩] ++ ⟨70, false, some 7, []⟩ ::
            [⟨100, false, none, []⟩])).2.length = 1 + 1
      ∧ min 7 cronCheckIntervalSeconds ≤ cronCheckIntervalSeconds
      ∧ (7 < cronCheckIntervalSeconds → min 7 cronCheckIntervalSeconds = 7)) :=
  ⟨by decide, rfl, rfl,
   (stop_signal_ends_loop ⟨[], [⟨some "j", none, some "* * * * *", none, none, none, none⟩]⟩
      [⟨10, false, none, []⟩] ⟨70, false, some 7, []⟩ [⟨100, false, none, []⟩] 7
      (by decide) rfl rfl).2⟩

/-! ### Helper lemmas: exceptions inside a cycle -/

/-- The first faulting job ends the cycle's walk: the jobs before it
are evaluated as usual, the faulting job and everything after it are
skipped, and the exception is recorded as caught-and-logged. -/
theorem runCycleJobs_fault_split (fault : List String) (now : Int) (j : Job)
    (post : List Job) (hj : jobFaults fault j = true) :
    ∀ (pre : List Job) (st : SchedState), (∀ k ∈ pre, jobFaults fault k = false) →
      runCycleJobs fault now st (pre ++ j :: post) =
        ((runCycleJobs fault now st pre).1, (runCycleJobs fault now st pre).2.1, true) := by
  intro pre
  induction pre with
  | nil =>
    intro st _
    rw [List.nil_append, runCycleJobs_cons, if_pos hj]
    rfl
  | cons k pre ih =>
    intro st hpre
    have hk : jobFaults fault k = false := hpre k (List.mem_cons_self k pre)
    rw [List.cons_append, runCycleJobs_cons, runCycleJobs_cons fault now st k pre]
    simp only [hk, Bool.false_eq_true, if_false]
    rw [ih _ (fun q hq => hpre q (List.mem_cons_of_mem k hq))]

/-- C3 (amended): an exception raised while evaluating one job is
caught and logged at the cycle level and the loop itself survives to
run further cycles, but the remaining jobs of the same cycle are *not*
evaluated: the cycle's walk ends at the faulting job, and only the
jobs before it were evaluated. -/
theorem cycle_exception_isolation (fault : List String) (now : Int) (st : SchedState)
    (pre : List Job) (j : Job) (post : List Job)
    (hstore : st.store = pre ++ j :: post)
    (hpre : ∀ k ∈ pre, jobFaults fault k = false)
    (hj : jobFaults fault j = true) :
    runCycle fault now st
      = ((runCycleJobs fault now st pre).1, (runCycleJobs fault now st pre).2.1, true)
    ∧ (∀ (c c₂ : CycleInput), c.stopAtStart = false → c.signalDuringWait = none →
        c₂.stopAtStart = false → (runLoop st [c, c₂]).2.length = 2) := by
  constructor
  · show runCycleJobs fault now st st.store = _
    rw [hstore]
    exact runCycleJobs_fault_split fault now j post hj pre st hpre
  · intro c c₂ hs1 hw1 hs2
    rw [runLoop_cons, if_neg (by rw [hs1]; simp), hw1]
    simp only [List.length_cons]
    rw [runLoop_cons, if_neg (by rw [hs2]; simp)]
    cases c₂.signalDuringWait <;> simp [runLoop]

/-- Counterexample to C3 as stated: with two enabled `* * * * *` jobs
`a` then `b` and an exception while evaluating `a`, the cycle
dispatches nothing at all — `b`, which fires in the same cycle when
`a` does not raise, is never evaluated. -/
theorem cycle_exception_not_isolated :
    (runCycle ["a"] 0 ⟨[], [⟨some "a", none, some "* * * * *", none, none, none, none⟩,
        ⟨some "b", none, some "* * * * *", none, none, none, none⟩]⟩).2.1 = []
    ∧ (runCycle ["a"] 0 ⟨[], [⟨some "a", none, some "* * * * *", none, none, none, none⟩,
        ⟨some "b", none, some "* * * * *", none, none, none, none⟩]⟩).2.2 = true
    ∧ (runCycle [] 0 ⟨[], [⟨some "a", none, some "* * * * *", none, none, none, none⟩,
        ⟨some "b", none, some "* * * * *", none, none, none, none⟩]⟩).2.1 = ["a", "b"] := by
  refine ⟨rfl, rfl, ?_⟩
  decide

/-- Witness for C3's amended theorem at a concrete faulting store. -/
theorem cycle_exception_isolation_witness :
    ((⟨[], [⟨some "a", none, some "* * * * *", none, none, none, none⟩,
        ⟨some "b", none, some "* * * * *", none, none, none, none⟩]⟩ : SchedState).store
      = [] ++ ⟨some "a", none, some "* * * * *", none, none, none, none⟩ ::
          [⟨some "b", none, some "* * * * *", none, none, none, none⟩])
    ∧ jobFaults ["a"] ⟨some "a", none, some "* * * * *", none, none, none, none⟩ = true
    ∧ (runCycle ["a"] 0 ⟨[], [⟨some "a", none, some "* * * * *", none, none, none, none⟩,
          ⟨some "b", none, some "* * * * *", none, none, none, none⟩]⟩
        = ((runCycleJobs ["a"] 0 ⟨[], [⟨some "a", none, some "* * * * *", none, none, none, none⟩,
              ⟨some "b", none, some "* * * * *", none, none, none, none⟩]⟩ []).1,
           (runCycleJobs ["a"] 0 ⟨[], [⟨some "a", none, some "* * * * *", none, none, none, none⟩,
              ⟨some "b", none, some "* * * * *", none, none, none, none⟩]⟩ []).2.1, true)
      ∧ (∀ (c c₂ : CycleInput), c.stopAtStart = false → c.signalDuringWait = none →
          c₂.stopAtStart = false →
          (runLoop ⟨[], [⟨some "a", none, some "* * * * *", none, none, none, none⟩,
              ⟨some "b", none, some "* * * * *", none, none, none, none⟩]⟩ [c, c₂]).2.length = 2)) :=
  ⟨rfl, rfl,
   cycle_exception_isolation ["a"] 0 _ [] _ _ rfl (by simp) rfl⟩

/-! ### Helper lemmas: one-shot jobs and the store -/

/-- The jobs of a store carrying a given name, in order. -/
def nNamed (n : String) (l : List Job) : List Job :=
  l.filter (fun k => k.name == some n)

theorem jobFaults_nil (k : Job) : jobFaults [] k = false := by
  unfold jobFaults
  cases k.name <;> rfl

theorem mem_removeCronJob (l : List Job) (p : String) (k : Job)
    (h : k ∈ removeCronJob l p) : k ∈ l := (List.mem_filter.mp h).1

theorem mem_disableCronJob (l : List Job) (p : String) (k : Job)
    (h : k ∈ disableCronJob l p) :
    k ∈ l ∨ ∃ k₀, k₀ ∈ l ∧ k = { k₀ with enabled := some false } := by
  induction l with
  | nil => simp [disableCronJob] at h
  | cons x xs ih =>
    simp only [disableCronJob] at h
    split at h
    · rcases List.mem_cons.mp h with h1 | h1
      · right
        exact ⟨x, List.mem_cons_self _ _, h1⟩
      · left
        exact List.mem_cons_of_mem _ h1
    · rcases List.mem_cons.mp h with h1 | h1
      · left
        rw [h1]
        exact List.mem_cons_self _ _
      · rcases ih h1 with h2 | ⟨k₀, hk₀, he⟩
        · left
          exact List.mem_cons_of_mem _ h2
        · right
          exact ⟨k₀, List.mem_cons_of_mem _ hk₀, he⟩

/-- Removing another name leaves the `n`-named jobs unchanged. -/
theorem nNamed_removeCronJob (n p : String) (hp : p ≠ n) (l : List Job) :
    nNamed n (removeCronJob l p) = nNamed n l := by
  unfold nNamed removeCronJob
  rw [List.filter_filter]
  apply List.filter_congr
  intro k _
  cases hk : (k.name == some n)
  · simp
  · have hkn : k.name = some n := beq_iff_eq.mp hk
    have : (k.name == some p) = false := by
      apply beq_eq_false_iff_ne.mpr
      rw [hkn]
      intro hc
      exact hp (Option.some.inj hc).symm
    simp [this]

/-- Disabling another name leaves the `n`-named jobs unchanged. -/
theorem nNamed_disableCronJob (n p : String) (hp : p ≠ n) (l : List Job) :
    nNamed n (disableCronJob l p) = nNamed n l := by
  induction l with
  | nil => rfl
  | cons x xs ih =>
    unfold disableCronJob
    by_cases hx : (x.name == some p) = true
    · rw [if_pos hx]
      have hxn : x.name = some p := beq_iff_eq.mp hx
      have hnot : (x.name == some n) = false := by
        apply beq_eq_false_iff_ne.mpr
        rw [hxn]
        intro hc
        exact hp (Option.some.inj hc)
      unfold nNamed
      simp only [List.filter_cons, hnot]
      rfl
    · rw [if_neg hx]
      unfold nNamed at ih ⊢
      simp only [List.filter_cons]
      rw [ih]

/-- Lookup by `get_cron_job` is the head of the name slice. -/
theorem getCronJob_eq_head (n : String) (l : List Job) :
    getCronJob l n = (nNamed n l).head? := by
  induction l with
  | nil => rfl
  | cons x xs ih =>
    unfold getCronJob nNamed at ih ⊢
    rw [List.find?_cons, List.filter_cons]
    cases hx : (x.name == some n)
    · simpa using ih
    · simp

/-- Disabling `n` on a store whose `n`-named jobs are `j :: rest`
disables exactly that first job. -/
theorem nNamed_disableCronJob_self (n : String) (j : Job) (rest : List Job) :
    ∀ (l : List Job), nNamed n l = j :: rest →
      nNamed n (disableCronJob l n) = { j with enabled := some false } :: rest := by
  intro l
  induction l with
  | nil => intro h; simp [nNamed] at h
  | cons x xs ih =>
    intro h
    unfold nNamed at h ⊢
    rw [List.filter_cons] at h
    unfold disableCronJob
    by_cases hx : (x.name == some n) = true
    · rw [if_pos hx] at h
      obtain ⟨hxj, hrest⟩ := List.cons.inj h
      rw [if_pos hx, List.filter_cons]
      have hx₂ : (({ x with enabled := some false } : Job).name == some n) = true := hx
      rw [if_pos hx₂, hrest, hxj]
    · rw [if_neg hx] at h
      rw [if_neg hx, List.filter_cons, if_neg hx]
      exact ih h

/-- Every `n`-named job of a store occurs in its `n`-named slice. -/
theorem mem_nNamed_of_mem (n : String) (l : List Job) (k : Job)
    (hk : k ∈ l) (hn : k.name = some n) : k ∈ nNamed n l :=
  List.mem_filter.mpr ⟨hk, by rw [hn]; exact beq_self_eq_true _⟩

/-- After removing `n`, no job of the store is named `n`. -/
theorem removeCronJob_no_n (n : String) (l : List Job) (k : Job)
    (hk : k ∈ removeCronJob l n) : ¬ k.name = some n := by
  have := (List.mem_filter.mp hk).2
  intro hc
  rw [hc] at this
  simp at this

/-- Evaluating a job with another name leaves the `n`-named slice of
the store untouched. -/
theorem processJob_store_nNamed (now : Int) (st : SchedState) (j : Job) (n : String)
    (hjn : j.name.getD "" ≠ n) :
    nNamed n (processJob now st j).1.store = nNamed n st.store := by
  by_cases h1 : j.name.getD "" = ""
  · rw [processJob_skip_name now st j h1]
  · by_cases h2 : j.enabled.getD true = false
    · rw [processJob_skip_disabled now st j h2]
    · cases ha : j.atV with
      | some a =>
        by_cases hd : oneShotDecision now st (j.name.getD "") a = true
        · rw [processJob_oneshot_pos now st j a h1 h2 ha hd]
          unfold oneShotCleanup
          split
          · exact nNamed_removeCronJob n _ hjn st.store
          · exact nNamed_disableCronJob n _ hjn st.store
        · rw [processJob_oneshot_neg now st j a ha hd]
      | none =>
        by_cases hd : cronDecision now st j (j.name.getD "") = true
        · rw [processJob_cron_pos now st j h1 h2 ha hd]
        · rw [processJob_cron_neg now st j ha hd]

/-- Evaluating a job preserves any pointwise store property that is
stable under disabling. -/
theorem processJob_store_pointwise (now : Int) (st : SchedState) (j : Job)
    (P : Job → Prop) (hP : ∀ k, P k → P { k with enabled := some false })
    (h : ∀ k ∈ st.store, P k) :
    ∀ k ∈ (processJob now st j).1.store, P k := by
  by_cases h1 : j.name.getD "" = ""
  · rw [processJob_skip_name now st j h1]
    exact h
  · by_cases h2 : j.enabled.getD true = false
    · rw [processJob_skip_disabled now st j h2]
      exact h
    · cases ha : j.atV with
      | some a =>
        by_cases hd : oneShotDecision now st (j.name.getD "") a = true
        · rw [processJob_oneshot_pos now st j a h1 h2 ha hd]
          unfold oneShotCleanup
          split
          · intro k hk
            exact h k (mem_removeCronJob _ _ _ hk)
          · intro k hk
            rcases mem_disableCronJob _ _ _ hk with hm | ⟨k₀, hk₀, he⟩
            · exact h k hm
            · rw [he]
              exact hP k₀ (h k₀ hk₀)
        · rw [processJob_oneshot_neg now st j a ha hd]
          exact h
      | none =>
        by_cases hd : cronDecision now st j (j.name.getD "") = true
        · rw [processJob_cron_pos now st j h1 h2 ha hd]
          exact h
        · rw [processJob_cron_neg now st j ha hd]
          exact h

/-- A fault-free walk over jobs named differently from `n` dispatches
no `n`, and leaves both the fire record of `n` and the `n`-named slice
of the store unchanged. -/
theorem runCycleJobs_other (now : Int) (n : String) :
    ∀ (jobs : List Job) (st : SchedState), (∀ k ∈ jobs, k.name.getD "" ≠ n) →
      lookupTime n (runCycleJobs [] now st jobs).1.lastRunTimes
          = lookupTime n st.lastRunTimes
      ∧ (runCycleJobs [] now st jobs).2.1.count n = 0
      ∧ nNamed n (runCycleJobs [] now st jobs).1.store = nNamed n st.store := by
  intro jobs
  induction jobs with
  | nil => intro st _; exact ⟨rfl, rfl, rfl⟩
  | cons j rest ih =>
    intro st hj
    have hjn : j.name.getD "" ≠ n := hj j (List.mem_cons_self j rest)
    rw [runCycleJobs_cons, if_neg (by rw [jobFaults_nil]; simp)]
    have hoth := processJob_other_name now st j n hjn
    have hnn := processJob_store_nNamed now st j n hjn
    have hrest := ih (processJob now st j).1 (fun q hq => hj q (List.mem_cons_of_mem j hq))
    refine ⟨by rw [hrest.1, hoth.1], ?_, by rw [hrest.2.2, hnn]⟩
    cases hd : (processJob now st j).2 with
    | none => exact hrest.2.1
    | some x =>
      have hx : x ≠ n := by
        intro hc
        exact hoth.2 (hc ▸ hd)
      simp only [List.count_cons, hrest.2.1]
      simp [hx]

/-- Once a fire record for `n` exists and every `n`-named job is
one-shot, no cycle dispatches `n` again, and both facts persist. -/
theorem runCycleJobs_suppressed (fault : List String) (now : Int) (n : String) :
    ∀ (jobs : List Job) (st : SchedState),
      (lookupTime n st.lastRunTimes).isSome = true →
      (∀ k ∈ jobs, k.name = some n → k.atV ≠ none) →
      (∀ k ∈ st.store, k.name = some n → k.atV ≠ none) →
      (runCycleJobs fault now st jobs).2.1.count n = 0
      ∧ (lookupTime n (runCycleJobs fault now st jobs).1.lastRunTimes).isSome = true
      ∧ (∀ k ∈ (runCycleJobs fault now st jobs).1.store, k.name = some n → k.atV ≠ none) := by
  intro jobs
  induction jobs with
  | nil => intro st h1 _ h3; exact ⟨rfl, h1, h3⟩
  | cons j rest ih =>
    intro st h1 h2 h3
    rw [runCycleJobs_cons]
    by_cases hf : jobFaults fault j = true
    · rw [if_pos hf]
      exact ⟨rfl, h1, h3⟩
    · rw [if_neg hf]
      have hstep : (runCycleJobs fault now (processJob now st j).1 rest).2.1.count n = 0
          ∧ (lookupTime n (runCycleJobs fault now (processJob now st j).1 rest).1.lastRunTimes).isSome = true
          ∧ (∀ k ∈ (runCycleJobs fault now (processJob now st j).1 rest).1.store,
              k.name = some n → k.atV ≠ none) := by
        refine ih (processJob now st j).1 (processJob_lookup_isSome now st j n h1)
          (fun q hq => h2 q (List.mem_cons_of_mem j hq))
          (processJob_store_pointwise now st j _ ?_ h3)
        intro k hk
        exact hk
      by_cases hjn : j.name.getD "" = n
      · by_cases hblank : j.name.getD "" = ""
        · rw [processJob_skip_name now st j hblank] at hstep ⊢
          exact hstep
        · have hname : j.name = some n := by
            cases hopt : j.name with
            | none => rw [hopt] at hblank; simp at hblank
            | some y =>
              rw [hopt] at hjn
              simp at hjn
              rw [hjn]
          obtain ⟨a, ha⟩ : ∃ a, j.atV = some a := by
            have := h2 j (List.mem_cons_self j rest) hname
            cases hat : j.atV with
            | none => exact absurd hat this
            | some a => exact ⟨a, rfl⟩
          obtain ⟨t, ht⟩ : ∃ t, lookupTime n st.lastRunTimes = some t := by
            cases hl : lookupTime n st.lastRunTimes with
            | none => rw [hl] at h1; simp at h1
            | some t => exact ⟨t, rfl⟩
          have hsup := processJob_oneshot_suppressed now st j n a t hname ha ht
          rw [hsup] at hstep ⊢
          exact hstep
      · have hoth := processJob_other_name now st j n hjn
        refine ⟨?_, hstep.2.1, hstep.2.2⟩
        cases hd : (processJob now st j).2 with
        | none => exact hstep.1
        | some x =>
          have hx : x ≠ n := fun hc => hoth.2 (hc ▸ hd)
          simp only [List.count_cons, hstep.1]
          simp [hx]

/-- Once a fire record for `n` exists and every `n`-named stored job
is one-shot, no later cycle of the loop dispatches `n`. -/
theorem runLoop_suppressed (n : String) :
    ∀ (inputs : List CycleInput) (st : SchedState),
      (lookupTime n st.lastRunTimes).isSome = true →
      (∀ k ∈ st.store, k.name = some n → k.atV ≠ none) →
      (allDispatches (runLoop st inputs).2).count n = 0 := by
  intro inputs
  induction inputs with
  | nil => intro st _ _; rfl
  | cons c rest ih =>
    intro st h1 h2
    have hcyc : (runCycle c.faultNames c.now st).2.1.count n = 0
        ∧ (lookupTime n (runCycle c.faultNames c.now st).1.lastRunTimes).isSome = true
        ∧ (∀ k ∈ (runCycle c.faultNames c.now st).1.store, k.name = some n → k.atV ≠ none) :=
      runCycleJobs_suppressed c.faultNames c.now n st.store st h1 h2 h2
    rw [runLoop_cons]
    by_cases hstop : c.stopAtStart = true
    · rw [if_pos hstop]
      rfl
    · rw [if_neg hstop]
      cases hsig : c.signalDuringWait with
      | some d =>
        rw [allDispatches_singleton]
        exact hcyc.1
      | none =>
        rw [allDispatches_cons, List.count_append, hcyc.1,
          ih (runCycle c.faultNames c.now st).1 hcyc.2.1 hcyc.2.2]

/-- A fault-free cycle walk distributes over list append. -/
theorem runCycleJobs_append (now : Int) :
    ∀ (l₁ : List Job) (st : SchedState) (l₂ : List Job),
      (runCycleJobs [] now st (l₁ ++ l₂)).1
          = (runCycleJobs [] now (runCycleJobs [] now st l₁).1 l₂).1
      ∧ (runCycleJobs [] now st (l₁ ++ l₂)).2.1
          = (runCycleJobs [] now st l₁).2.1
            ++ (runCycleJobs [] now (runCycleJobs [] now st l₁).1 l₂).2.1 := by
  intro l₁
  induction l₁ with
  | nil => intro st l₂; exact ⟨rfl, rfl⟩
  | cons k l₁ ih =>
    intro st l₂
    rw [List.cons_append, runCycleJobs_cons, runCycleJobs_cons [] now st k l₁]
    simp only [jobFaults_nil, Bool.false_eq_true, if_false]
    have := ih (processJob now st k).1 l₂
    refine ⟨this.1, ?_⟩
    cases (processJob now st k).2 with
    | none => exact this.2
    | some x =>
      simp only [List.cons_append, this.2]

theorem name_beq_false (k : Job) (n : String) (h : k.name.getD "" ≠ n) :
    (k.name == some n) = false := by
  cases hk : k.name with
  | none => rfl
  | some m =>
    apply beq_eq_false_iff_ne.mpr
    intro hc
    apply h
    rw [hk]
    exact Option.some.inj hc

theorem nNamed_eq_nil (n : String) (l : List Job)
    (h : ∀ k ∈ l, k.name.getD "" ≠ n) : nNamed n l = [] := by
  unfold nNamed
  rw [List.filter_eq_nil]
  intro k hk
  rw [name_beq_false k n (h k hk)]
  simp

theorem nNamed_single (n : String) (pre post : List Job) (j : Job)
    (hname : j.name = some n)
    (hpre : ∀ k ∈ pre, k.name.getD "" ≠ n)
    (hpost : ∀ k ∈ post, k.name.getD "" ≠ n) :
    nNamed n (pre ++ j :: post) = [j] := by
  unfold nNamed
  rw [List.filter_append, List.filter_cons]
  have h1 : (j.name == some n) = true := by rw [hname]; exact beq_self_eq_true _
  rw [h1]
  have h2 := nNamed_eq_nil n pre hpre
  have h3 := nNamed_eq_nil n post hpost
  unfold nNamed at h2 h3
  rw [h2, h3]
  simp

theorem nNamed_removeCronJob_self (n : String) (l : List Job) :
    nNamed n (removeCronJob l n) = [] := by
  unfold nNamed
  rw [List.filter_eq_nil]
  intro k hk
  have := removeCronJob_no_n n l k hk
  intro hc
  exact this (beq_iff_eq.mp hc)

theorem oneShotDecision_true (now : Int) (st : SchedState) (jn a : String) (t : Int)
    (hparse : parseOneShotTime now a = some t) (hpast : t ≤ now)
    (hlk : lookupTime jn st.lastRunTimes = none) :
    oneShotDecision now st jn a = true := by
  unfold oneShotDecision
  rw [hparse, hlk]
  simp [hpast]

/-- One cycle over a store containing exactly one job named `n` — a
due, enabled one-shot with no prior fire record — dispatches `n`
exactly once, records the fire, and applies the post-fire policy to
the store within the same cycle. -/
theorem runCycle_oneshot (st : SchedState) (pre post : List Job) (j : Job)
    (n a : String) (t now : Int)
    (hstore : st.store = pre ++ j :: post)
    (hname : j.name = some n) (hne : n ≠ "")
    (hen : j.enabled.getD true = true)
    (hat : j.atV = some a)
    (hparse : parseOneShotTime now a = some t) (hpast : t ≤ now)
    (hrec : lookupTime n st.lastRunTimes = none)
    (hpre : ∀ k ∈ pre, k.name.getD "" ≠ n)
    (hpost : ∀ k ∈ post, k.name.getD "" ≠ n) :
    (runCycle [] now st).2.1.count n = 1
    ∧ (lookupTime n (runCycle [] now st).1.lastRunTimes).isSome = true
    ∧ (j.delete_after_run.getD false = true → nNamed n (runCycle [] now st).1.store = [])
    ∧ (j.delete_after_run.getD false = false →
        nNamed n (runCycle [] now st).1.store = [{ j with enabled := some false }]) := by
  have hjn : j.name.getD "" = n := by rw [hname]; rfl
  have hrc : runCycle [] now st = runCycleJobs [] now st (pre ++ j :: post) := by
    unfold runCycle
    rw [hstore]
  obtain ⟨hA1, hA2, hA3⟩ := runCycleJobs_other now n pre st hpre
  have hlkA : lookupTime n (runCycleJobs [] now st pre).1.lastRunTimes = none := by
    rw [hA1, hrec]
  have hdec : oneShotDecision now (runCycleJobs [] now st pre).1 (j.name.getD "") a = true := by
    rw [hjn]
    exact oneShotDecision_true now _ n a t hparse hpast hlkA
  have hpj := processJob_oneshot_pos now (runCycleJobs [] now st pre).1 j a
    (by rw [hjn]; exact hne) (by rw [hen]; simp) hat hdec
  rw [hjn] at hpj
  obtain ⟨hB1, hB2, hB3⟩ := runCycleJobs_other now n post
    (oneShotCleanup { runCycleJobs [] now st pre |>.1 with
      lastRunTimes := (n, now) :: (runCycleJobs [] now st pre).1.lastRunTimes } j n) hpost
  have hcons : runCycleJobs [] now (runCycleJobs [] now st pre).1 (j :: post)
      = ((runCycleJobs [] now (oneShotCleanup { runCycleJobs [] now st pre |>.1 with
            lastRunTimes := (n, now) :: (runCycleJobs [] now st pre).1.lastRunTimes } j n) post).1,
         n :: (runCycleJobs [] now (oneShotCleanup { runCycleJobs [] now st pre |>.1 with
            lastRunTimes := (n, now) :: (runCycleJobs [] now st pre).1.lastRunTimes } j n) post).2.1,
         (runCycleJobs [] now (oneShotCleanup { runCycleJobs [] now st pre |>.1 with
            lastRunTimes := (n, now) :: (runCycleJobs [] now st pre).1.lastRunTimes } j n) post).2.2) := by
    rw [runCycleJobs_cons]
    simp only [jobFaults_nil, Bool.false_eq_true, if_false]
    rw [hpj]
  have happ := runCycleJobs_append now pre st (j :: post)
  have hclean_lrt : (oneShotCleanup { runCycleJobs [] now st pre |>.1 with
      lastRunTimes := (n, now) :: (runCycleJobs [] now st pre).1.lastRunTimes } j n).lastRunTimes
      = (n, now) :: (runCycleJobs [] now st pre).1.lastRunTimes :=
    oneShotCleanup_lastRunTimes _ j n
  refine ⟨?_, ?_, ?_, ?_⟩
  · rw [hrc, happ.2, hcons]
    rw [List.count_append, hA2]
    simp only [List.count_cons, hB2, beq_self_eq_true, if_true]
  · rw [hrc, happ.1, hcons]
    rw [hB1, hclean_lrt]
    rw [lookupTime_cons, if_pos rfl]
    rfl
  · intro hdel
    rw [hrc, happ.1, hcons, hB3]
    unfold oneShotCleanup
    rw [if_pos hdel]
    exact nNamed_removeCronJob_self n _
  · intro hdel
    rw [hrc, happ.1, hcons, hB3]
    unfold oneShotCleanup
    rw [if_neg (by rw [hdel]; simp)]
    apply nNamed_disableCronJob_self n j [] _
    show nNamed n (runCycleJobs [] now st pre).1.store = [j]
    rw [hA3, hstore]
    exact nNamed_single n pre post j hname hpre hpost

/-- C2: a one-shot job whose parsed instant has passed and which has
no prior in-memory fire record is dispatched exactly once for the
whole remaining life of the process, and the store mutation happens
synchronously in the dispatching cycle itself: after that very cycle
the job is gone (`delete_after_run: true`) or disabled
(`delete_after_run: false`). -/
theorem one_shot_fires_exactly_once
    (st : SchedState) (pre post : List Job) (j : Job) (n a : String) (t : Int)
    (c : CycleInput) (rest : List CycleInput)
    (hstore : st.store = pre ++ j :: post)
    (hname : j.name = some n) (hne : n ≠ "")
    (hen : j.enabled.getD true = true)
    (hat : j.atV = some a)
    (hparse : parseOneShotTime c.now a = some t) (hpast : t ≤ c.now)
    (hrec : lookupTime n st.lastRunTimes = none)
    (hpre : ∀ k ∈ pre, k.name.getD "" ≠ n)
    (hpost : ∀ k ∈ post, k.name.getD "" ≠ n)
    (hfault : c.faultNames = [])
    (hstart : c.stopAtStart = false) :
    (allDispatches (runLoop st (c :: rest)).2).count n = 1
    ∧ (j.delete_after_run.getD false = true →
        ∀ k ∈ (runCycle c.faultNames c.now st).1.store, ¬ k.name = some n)
    ∧ (j.delete_after_run.getD false = false →
        getCronJob (runCycle c.faultNames c.now st).1.store n
          = some { j with enabled := some false }) := by
  have hcyc := runCycle_oneshot st pre post j n a t c.now hstore hname hne hen hat
    hparse hpast hrec hpre hpost
  have hstp : ∀ k ∈ (runCycle [] c.now st).1.store, k.name = some n → k.atV ≠ none := by
    intro k hk hkn
    have hmem : k ∈ nNamed n (runCycle [] c.now st).1.store := mem_nNamed_of_mem n _ k hk hkn
    by_cases hdel : j.delete_after_run.getD false = true
    · rw [hcyc.2.2.1 hdel] at hmem
      simp at hmem
    · have hdel₂ : j.delete_after_run.getD false = false := by
        revert hdel
        cases j.delete_after_run.getD false <;> simp
      rw [hcyc.2.2.2 hdel₂] at hmem
      simp only [List.mem_singleton] at hmem
      rw [hmem]
      show ¬ j.atV = none
      rw [hat]
      simp
  refine ⟨?_, ?_, ?_⟩
  · rw [runLoop_cons, if_neg (by rw [hstart]; simp), hfault]
    cases hsig : c.signalDuringWait with
    | some d =>
      rw [allDispatches_singleton]
      exact hcyc.1
    | none =>
      rw [allDispatches_cons, List.count_append, hcyc.1,
        runLoop_suppressed n rest (runCycle [] c.now st).1 hcyc.2.1 hstp]
  · intro hdel k hk hkn
    rw [hfault] at hk
    have hmem : k ∈ nNamed n (runCycle [] c.now st).1.store := mem_nNamed_of_mem n _ k hk hkn
    rw [hcyc.2.2.1 hdel] at hmem
    simp at hmem
  · intro hdis
    rw [hfault, getCronJob_eq_head, hcyc.2.2.2 hdis]
    rfl

/-- Witness for C2: a due one-shot job (`at` = 1970-01-01T00:01:00,
evaluated at 100 s) with `delete_after_run: false` is dispatched
exactly once over two cycles and is disabled in the store by the
dispatching cycle itself. -/
theorem one_shot_fires_exactly_once_witness :
    parseOneShotTime 100 "1970-01-01T00:01:00" = some 60
    ∧ (60 : Int) ≤ 100
    ∧ ((allDispatches (runLoop
          ⟨[], [⟨some "once", some true, none, some "1970-01-01T00:01:00",
            none, some false, none⟩]⟩
          (⟨100, false, none, []⟩ :: [⟨130, false, none, []⟩])).2).count "once" = 1
      ∧ ((some false : Option Bool).getD false = true →
          ∀ k ∈ (runCycle [] 100
              ⟨[], [⟨some "once", some true, none, some "1970-01-01T00:01:00",
                none, some false, none⟩]⟩).1.store, ¬ k.name = some "once")
      ∧ ((some false : Option Bool).getD false = false →
          getCronJob (runCycle [] 100
              ⟨[], [⟨some "once", some true, none, some "1970-01-01T00:01:00",
                none, some false, none⟩]⟩).1.store "once"
            = some ⟨some "once", some false, none, some "1970-01-01T00:01:00",
                none, some false, none⟩)) :=
  ⟨by decide, by decide,
   one_shot_fires_exactly_once
     ⟨[], [⟨some "once", some true, none, some "1970-01-01T00:01:00",
       none, some false, none⟩]⟩
     [] [] ⟨some "once", some true, none, some "1970-01-01T00:01:00", none, some false, none⟩
     "once" "1970-01-01T00:01:00" 60 ⟨100, false, none, []⟩ [⟨130, false, none, []⟩]
     rfl rfl (by decide) rfl rfl (by decide) (by decide) rfl
     (by simp) (by simp) rfl rfl⟩

/-! ### Helper lemmas: stored `at` values across evaluation -/

/-- Every job in the store after one evaluation step descends from a
stored job with the same `name` and the same `at` value. -/
theorem processJob_store_from (now : Int) (st : SchedState) (j : Job) (k : Job)
    (h : k ∈ (processJob now st j).1.store) :
    ∃ k₀, k₀ ∈ st.store ∧ k₀.name = k.name ∧ k₀.atV = k.atV := by
  by_cases h1 : j.name.getD "" = ""
  · rw [processJob_skip_name now st j h1] at h
    exact ⟨k, h, rfl, rfl⟩
  · by_cases h2 : j.enabled.getD true = false
    · rw [processJob_skip_disabled now st j h2] at h
      exact ⟨k, h, rfl, rfl⟩
    · cases ha : j.atV with
      | some a =>
        by_cases hd : oneShotDecision now st (j.name.getD "") a = true
        · rw [processJob_oneshot_pos now st j a h1 h2 ha hd] at h
          unfold oneShotCleanup at h
          split at h
          · exact ⟨k, mem_removeCronJob _ _ _ h, rfl, rfl⟩
          · rcases mem_disableCronJob _ _ _ h with hm | ⟨k₀, hk₀, he⟩
            · exact ⟨k, hm, rfl, rfl⟩
            · exact ⟨k₀, hk₀, by rw [he], by rw [he]⟩
        · rw [processJob_oneshot_neg now st j a ha hd] at h
          exact ⟨k, h, rfl, rfl⟩
      | none =>
        by_cases hd : cronDecision now st j (j.name.getD "") = true
        · rw [processJob_cron_pos now st j h1 h2 ha hd] at h
          exact ⟨k, h, rfl, rfl⟩
        · rw [processJob_cron_neg now st j ha hd] at h
          exact ⟨k, h, rfl, rfl⟩

/-- Every job in the store after a whole cycle descends from a stored
job with the same `name` and the same `at` value. -/
theorem runCycleJobs_store_from (fault : List String) (now : Int) :
    ∀ (jobs : List Job) (st : SchedState) (k : Job),
      k ∈ (runCycleJobs fault now st jobs).1.store →
      ∃ k₀, k₀ ∈ st.store ∧ k₀.name = k.name ∧ k₀.atV = k.atV := by
  intro jobs
  induction jobs with
  | nil => intro st k h; exact ⟨k, h, rfl, rfl⟩
  | cons j rest ih =>
    intro st k h
    rw [runCycleJobs_cons] at h
    by_cases hf : jobFaults fault j = true
    · rw [if_pos hf] at h
      exact ⟨k, h, rfl, rfl⟩
    · rw [if_neg hf] at h
      obtain ⟨k₁, hk₁, hn₁, ha₁⟩ := ih (processJob now st j).1 k h
      obtain ⟨k₀, hk₀, hn₀, ha₀⟩ := processJob_store_from now st j k₁ hk₁
      exact ⟨k₀, hk₀, by rw [hn₀, hn₁], by rw [ha₀, ha₁]⟩

/-- C7: a relative `at` duration is resolved to an absolute ISO-8601
instant exactly once, at `add_cron_job` time, and stored absolute:
re-parsing the stored absolute value gives the same instant whatever
the parse-time clock says, whereas parsing a relative token at two
different instants gives two different results; and a scheduler cycle
never rewrites any stored job's `at` value. -/
theorem relative_at_resolved_once :
    (∀ (now : Int) (cfg : List Job) (job : Job) (n a : String) (amt : Nat) (u : Char),
      cfg.any (fun k => k.name.isNone) = false →
      job.name = some n →
      cfg.any (fun k => k.name == some n) = false →
      job.atV = some a →
      durationMatch (stripChars a.toList) = some (amt, u) →
      addCronJob now cfg job
        = Except.ok (cfg ++
            [{ job with atV := some (isoformat (now + durationSeconds amt u)) }]))
    ∧ (∀ (t n₁ n₂ : Int),
        parseOneShotTime n₁ (isoformat t) = parseOneShotTime n₂ (isoformat t))
    ∧ (∀ (s : String) (amt : Nat) (u : Char) (n₁ n₂ : Int),
        durationMatch (stripChars s.toList) = some (amt, u) → n₁ ≠ n₂ →
        parseOneShotTime n₁ s ≠ parseOneShotTime n₂ s)
    ∧ (∀ (fault : List String) (now : Int) (st : SchedState) (k : Job),
        k ∈ (runCycle fault now st).1.store →
        ∃ k₀, k₀ ∈ st.store ∧ k₀.name = k.name ∧ k₀.atV = k.atV) := by
  refine ⟨?_, ?_, ?_, ?_⟩
  · intro now cfg job n a amt u hkeys hn hdup hat hm
    unfold addCronJob
    rw [hkeys, hn]
    simp only [Bool.false_eq_true, if_false]
    rw [hdup]
    simp only [Bool.false_eq_true, if_false, hat]
    have hp : parseOneShotTime now a = some (now + durationSeconds amt u) := by
      unfold parseOneShotTime
      rw [hm]
    rw [hm, hp]
  · intro t n₁ n₂
    unfold parseOneShotTime
    have hl : (isoformat t).toList = isoformatChars t := rfl
    rw [hl, durationMatch_isoformat t]
  · intro s amt u n₁ n₂ hm hne
    unfold parseOneShotTime
    rw [hm]
    simp only [ne_eq, Option.some.injEq]
    omega
  · intro fault now st k h
    exact runCycleJobs_store_from fault now st.store st k h

/-- Witness for C7 at `"30m"` added over an empty store at time 0, the
stored absolute value re-parsed at two different instants, and the
relative token parsed at 0 and 1000. -/
theorem relative_at_resolved_once_witness :
    ((List.any [] (fun (k : Job) => k.name.isNone)) = false
      ∧ durationMatch (stripChars ("30m").toList) = some (30, 'm')
      ∧ addCronJob 0 [] ⟨some "r", some true, none, some "30m", none, some true, none⟩
          = Except.ok ([] ++ [⟨some "r", some true, none,
              some (isoformat (0 + durationSeconds 30 'm')), none, some true, none⟩]))
    ∧ parseOneShotTime 0 (isoformat 1800) = parseOneShotTime 99 (isoformat 1800)
    ∧ ((0 : Int) ≠ 1000 ∧ parseOneShotTime 0 "30m" ≠ parseOneShotTime 1000 "30m") :=
  ⟨⟨rfl, by decide,
    relative_at_resolved_once.1 0 [] ⟨some "r", some true, none, some "30m", none, some true, none⟩
      "r" "30m" 30 'm' rfl rfl rfl rfl (by decide)⟩,
   relative_at_resolved_once.2.1 1800 0 99,
   by decide,
   relative_at_resolved_once.2.2.1 "30m" 30 'm' 0 1000 (by decide) (by decide)⟩

/-- Counterexample to C4 as stated: `add_cron_job` itself does not
validate schedules — a job whose `schedule` is the invalid expression
`"not a cron"` is stored unchanged, with no error. -/
theorem add_cron_job_stores_invalid_schedule :
    validateCronSchedule "not a cron" = false
    ∧ addCronJob 0 [] ⟨some "x", some true, some "not a cron", none, none, none, some "hi"⟩
        = Except.ok [⟨some "x", some true, some "not a cron", none, none, none, some "hi"⟩] :=
  ⟨by decide, rfl⟩

/-- C4 (amended): `add_cron_job` rejects a duplicate name with an
error, storing nothing; the rejection of an invalid cron schedule or
an unparseable one-shot time happens synchronously in the CLI `cron
add` command — the only job-creation path — before `add_cron_job` is
called, again storing nothing; `add_cron_job` alone does not validate
schedules or times. -/
theorem job_add_validation :
    (∀ (now : Int) (cfg : List Job) (job : Job) (n : String),
      job.name = some n → cfg.any (fun k => k.name == some n) = true →
      ∃ msg, addCronJob now cfg job = Except.error msg)
    ∧ (∀ (now : Int) (cfg : List Job) (name atValue tz msg : String) (da : Bool) (s : String),
        parseOneShotTime now atValue = none →
        ∃ e, cronAddCommand now cfg name true atValue da s tz msg = Except.error e)
    ∧ (∀ (now : Int) (cfg : List Job) (name atValue tz msg : String) (da : Bool) (s : String),
        validateCronSchedule s = false →
        ∃ e, cronAddCommand now cfg name false atValue da s tz msg = Except.error e) := by
  refine ⟨?_, ?_, ?_⟩
  · intro now cfg job n hn hdup
    unfold addCronJob
    by_cases hk : cfg.any (fun k => k.name.isNone) = true
    · rw [if_pos hk]
      exact ⟨_, rfl⟩
    · rw [if_neg hk, hn]
      simp only [hdup, if_true]
      exact ⟨_, rfl⟩
  · intro now cfg name atValue tz msg da s hp
    unfold cronAddCommand
    by_cases hdup : (getCronJob cfg name).isSome = true
    · rw [if_pos hdup]
      exact ⟨_, rfl⟩
    · rw [if_neg hdup]
      simp only [if_true]
      rw [hp]
      exact ⟨_, rfl⟩
  · intro now cfg name atValue tz msg da s hv
    unfold cronAddCommand
    by_cases hdup : (getCronJob cfg name).isSome = true
    · rw [if_pos hdup]
      exact ⟨_, rfl⟩
    · rw [if_neg hdup]
      simp only [Bool.false_eq_true, if_false]
      rw [if_pos hv]
      exact ⟨_, rfl⟩

/-- Witness for C4's amended theorem: a duplicate name, an unparseable
one-shot time, and the invalid schedule `"not a cron"`, each rejected. -/
theorem job_add_validation_witness :
    ((List.any [⟨some "x", some true, some "0 9 * * *", none, none, none, none⟩]
        (fun (k : Job) => k.name == some "x")) = true
      ∧ ∃ msg, addCronJob 0 [⟨some "x", some true, some "0 9 * * *", none, none, none, none⟩]
          ⟨some "x", some true, some "0 8 * * *", none, none, none, none⟩
          = Except.error msg)
    ∧ (parseOneShotTime 0 "not a time" = none
      ∧ ∃ e, cronAddCommand 0 [] "y" true "not a time" true "" "UTC" "hello"
          = Except.error e)
    ∧ (validateCronSchedule "not a cron" = false
      ∧ ∃ e, cronAddCommand 0 [] "z" false "" true "not a cron" "UTC" "hello"
          = Except.error e) :=
  ⟨⟨by decide,
    job_add_validation.1 0 [⟨some "x", some true, some "0 9 * * *", none, none, none, none⟩]
      ⟨some "x", some true, some "0 8 * * *", none, none, none, none⟩ "x" rfl (by decide)⟩,
   ⟨by decide, job_add_validation.2.1 0 [] "y" "not a time" "UTC" "hello" true "" (by decide)⟩,
   ⟨by decide, job_add_validation.2.2 0 [] "z" "" "UTC" "hello" true "not a cron" (by decide)⟩⟩
